import Mathlib

/-!
Verification of the scoring and course-normalization logic of the
mana-running repository, as a shallow embedding in Lean 4.

The embedded functions mirror, definition by definition:
  * `src/app/meets/[meetId]/combined/page.tsx`
      (`calculateXcTimeTeamScores`, the qualifying-athlete sets, the
       sorted results with overall/scoring places, `updateTeamScores`,
       and the page-level construction of combined results with the
       course-rating guard);
  * `src/app/schools/[id]/records/page.tsx`
      (`loadOverallXCRecords` — the rounded XC times, the gender
       filters, the grade inference and grade buckets, the overall and
       per-grade record reductions — and `loadTeamRecords`);
  * `src/app/page.tsx` (`calculateBigMovers`);
  * `src/app/athletes/[id]/page.tsx` (the season XC-time formula).

Times are rationals (JavaScript numbers carrying seconds or
centiseconds), identifiers are strings, dates are (year, zero-based
month, day) triples ordered lexicographically, matching what
`new Date(...)` comparisons and `getFullYear`/`getMonth` expose.
JavaScript `Array.prototype.sort` is stable, so every `sort` call is
embedded as `List.insertionSort` with the comparator's reflexive
total preorder, which is also stable; `Map` iteration order is key
insertion order, embedded by collecting keys in first-occurrence
order and filtering the input list per key.
-/

/-- Indexed map matching `array.map((x, i) => f i x)`, starting at `i`. -/
def enumMap (f : ℕ → α → β) : ℕ → List α → List β
  | _, [] => []
  | i, a :: as => f i a :: enumMap f (i + 1) as

theorem enumMap_length (f : ℕ → α → β) : ∀ (i : ℕ) (l : List α),
    (enumMap f i l).length = l.length
  | _, [] => rfl
  | i, _ :: as => by simp [enumMap, enumMap_length f (i + 1) as]

theorem enumMap_append (f : ℕ → α → β) : ∀ (i : ℕ) (l₁ l₂ : List α),
    enumMap f i (l₁ ++ l₂) = enumMap f i l₁ ++ enumMap f (i + l₁.length) l₂
  | i, [], l₂ => by simp [enumMap]
  | i, a :: as, l₂ => by
    simp only [List.cons_append, enumMap, List.append_eq,
      enumMap_append f (i + 1) as l₂, List.length_cons]
    have h : i + 1 + as.length = i + (as.length + 1) := by omega
    rw [h]

theorem mem_enumMap {f : ℕ → α → β} : ∀ {i : ℕ} {l : List α} {b : β},
    b ∈ enumMap f i l → ∃ j a, j < l.length ∧ l.get? j = some a ∧ b = f (i + j) a := by
  intro i l
  induction l generalizing i with
  | nil => intro b h; simp [enumMap] at h
  | cons a as ih =>
    intro b h
    simp only [enumMap, List.mem_cons] at h
    rcases h with h | h
    · exact ⟨0, a, by simp, by simp, by simpa using h⟩
    · obtain ⟨j, a', hj, hget, hb⟩ := ih h
      exact ⟨j + 1, a', by simpa using hj, by simpa using hget,
        by rw [hb]; congr 1; omega⟩

theorem enumMap_take (f : ℕ → α → β) : ∀ (i k : ℕ) (l : List α),
    (enumMap f i l).take k = enumMap f i (l.take k)
  | _, 0, _ => rfl
  | _, _ + 1, [] => rfl
  | i, k + 1, a :: as => by
    simp [enumMap, List.take, enumMap_take f (i + 1) k as]

theorem enumMap_map (g : β → γ) (f : ℕ → α → β) : ∀ (i : ℕ) (l : List α),
    (enumMap f i l).map g = enumMap (fun j a => g (f j a)) i l
  | _, [] => rfl
  | i, a :: as => by simp [enumMap, enumMap_map g f (i + 1) as]

theorem enumMap_pairwise {R : α → α → Prop} {S : β → β → Prop} {f : ℕ → α → β}
    (hf : ∀ i j a b, R a b → S (f i a) (f j b)) :
    ∀ {i : ℕ} {l : List α}, l.Pairwise R → (enumMap f i l).Pairwise S := by
  intro i l
  induction l generalizing i with
  | nil => intro _; exact List.Pairwise.nil
  | cons a as ih =>
    intro h
    rcases List.pairwise_cons.mp h with ⟨ha, has⟩
    refine List.pairwise_cons.mpr ⟨?_, ih has⟩
    intro b hb
    obtain ⟨j, a', _, hget, hb'⟩ := mem_enumMap hb
    exact hb' ▸ hf _ _ _ _ (ha a' (List.get?_mem hget))

/-- Runner classification by team place (index `< 5` counting, `< 7`
displacer, otherwise non-counting), from `calculateXcTimeTeamScores`. -/
inductive RunnerStatus where
  | counting
  | displacer
  | noncounting
deriving DecidableEq, Repr

/-- One row of the `CombinedResult` interface of
`src/app/meets/[meetId]/combined/page.tsx`: `time_seconds` and
`xc_time` are in centiseconds. -/
structure CombinedResult where
  id : String
  athlete_id : String
  school_id : String
  team_name : String
  time_seconds : ℚ
  xc_time : ℚ
  race_gender : String
  place : ℕ
  overallPlace : ℕ
  scoringPlace : ℕ
deriving DecidableEq, Repr

/-- One entry of the `runners` array of a `TeamScore`. -/
structure TeamRunner where
  athleteId : String
  time : ℚ
  xcTime : ℚ
  overallPlace : ℕ
  teamPlace : ℕ
  status : RunnerStatus
  resultId : String
deriving DecidableEq, Repr

/-- The `TeamScore` record of the combined-results page. -/
structure TeamScore where
  schoolId : String
  schoolName : String
  place : ℕ
  totalTime : ℚ
  teamScore : ℕ
  runners : List TeamRunner
deriving DecidableEq, Repr

/-- An incomplete team (school with fewer than five finishers). -/
structure IncompleteTeam where
  schoolId : String
  schoolName : String
  totalRunners : ℕ
  runners : List TeamRunner
deriving DecidableEq, Repr

/-- Key-insertion step of the school `Map`: a school id is appended the
first time it is seen, and results with an empty `school_id` are
skipped (`if (result.school_id)`). -/
def addSchoolKey (ks : List String) (r : CombinedResult) : List String :=
  if r.school_id = "" then ks
  else if r.school_id ∈ ks then ks else ks ++ [r.school_id]

/-- School ids in `Map` insertion order, skipping empty school ids. -/
def schoolKeys (l : List CombinedResult) : List String :=
  l.foldl addSchoolKey []

/-- The per-school bucket of the `Map`: results pushed in input order. -/
def schoolGroup (l : List CombinedResult) (sid : String) : List CombinedResult :=
  l.filter (fun r => r.school_id = sid)

/-- Comparator `(a, b) => a.xc_time - b.xc_time` of the runner sorts. -/
def xcLe (a b : CombinedResult) : Prop := a.xc_time ≤ b.xc_time

instance : DecidableRel xcLe := fun a b =>
  inferInstanceAs (Decidable (a.xc_time ≤ b.xc_time))

instance : IsTotal CombinedResult xcLe := ⟨fun a b => le_total a.xc_time b.xc_time⟩

instance : IsTrans CombinedResult xcLe := ⟨fun _ _ _ h h' => le_trans h h'⟩

instance : IsRefl CombinedResult xcLe := ⟨fun a => le_refl a.xc_time⟩

/-- The per-runner record built inside `calculateXcTimeTeamScores`:
team place is the one-based index in the xc-time-sorted school group,
and the status is counting / displacer / non-counting accordingly.
`overallPlace` mirrors `runner.overallPlace || runner.place`. -/
def mkTeamRunner (i : ℕ) (r : CombinedResult) : TeamRunner :=
  { athleteId := r.athlete_id
    time := r.time_seconds
    xcTime := r.xc_time
    overallPlace := if r.overallPlace ≠ 0 then r.overallPlace else r.place
    teamPlace := i + 1
    status := if i < 5 then .counting else if i < 7 then .displacer else .noncounting
    resultId := r.id }

/-- The sorted, classified runner list of one school group. -/
def teamRunnersOf (runners : List CombinedResult) : List TeamRunner :=
  enumMap mkTeamRunner 0 (runners.insertionSort xcLe)

/-- First element's `team_name`, the `runners[0].team_name` access. -/
def firstTeamName : List CombinedResult → String
  | [] => ""
  | r :: _ => r.team_name

/-- Team construction from the school `Map`'s entries (school id and
bucket, in insertion order): schools with five or more runners become
complete teams with `totalTime` the sum of the top five xc times,
the rest incomplete teams, sorted by school name. -/
def teamsFromEntries (entries : List (String × List CombinedResult)) :
    List TeamScore × List IncompleteTeam :=
  let complete : List TeamScore := entries.filterMap (fun e =>
    if e.2.length < 5 then none
    else some
      { schoolId := e.1
        schoolName := firstTeamName e.2
        place := 0
        totalTime := (((teamRunnersOf e.2).take 5).map (fun rn => rn.xcTime)).sum
        teamScore := 0
        runners := teamRunnersOf e.2 })
  let incomplete : List IncompleteTeam := entries.filterMap (fun e =>
    if e.2.length < 5 then some
      { schoolId := e.1
        schoolName := firstTeamName e.2
        totalRunners := e.2.length
        runners := teamRunnersOf e.2 }
    else none)
  (complete,
   incomplete.insertionSort (fun a b => a.schoolName ≤ b.schoolName))

/-- Embeds `calculateXcTimeTeamScores` of the combined-results page:
group by school id (skipping empty ids), sort each group by xc time,
classify runners, and split schools into complete and incomplete
teams. -/
def calculateXcTimeTeamScores (l : List CombinedResult) :
    List TeamScore × List IncompleteTeam :=
  teamsFromEntries ((schoolKeys l).map (fun sid => (sid, schoolGroup l sid)))

instance : DecidableRel (fun a b : IncompleteTeam => a.schoolName ≤ b.schoolName) :=
  fun a b => inferInstanceAs (Decidable (a.schoolName ≤ b.schoolName))

/-- The qualifying-athlete id set: the top seven runners of every
complete team (`team.runners.slice(0, 7)`), kept as a list whose
membership is the `Set.has` test. -/
def qualifyingIds (teams : List TeamScore) : List String :=
  teams.foldl (fun acc t => acc ++ (t.runners.take 7).map (fun rn => rn.athleteId)) []

/-- Place assignment of the per-gender sorted results:
`overallPlace = i + 1`, and `scoringPlace = i + 1` for qualifying
athletes and `0` otherwise. -/
def placeAssign (qual : List String) (i : ℕ) (r : CombinedResult) : CombinedResult :=
  { r with
    overallPlace := i + 1
    scoringPlace := if r.athlete_id ∈ qual then i + 1 else 0 }

/-- Embeds the per-gender sorted results: sort by xc time, then assign
places with `placeAssign`. -/
def sortedWithPlaces (l : List CombinedResult) (qual : List String) :
    List CombinedResult :=
  enumMap (placeAssign qual) 0 (l.insertionSort xcLe)

instance : DecidableRel (fun a b : TeamScore => a.teamScore ≤ b.teamScore) :=
  fun a b => inferInstanceAs (Decidable (a.teamScore ≤ b.teamScore))

instance : IsTotal TeamScore (fun a b => a.teamScore ≤ b.teamScore) :=
  ⟨fun a b => Nat.le_total a.teamScore b.teamScore⟩

instance : IsTrans TeamScore (fun a b => a.teamScore ≤ b.teamScore) :=
  ⟨fun _ _ _ h h' => le_trans h h'⟩

/-- Scoring-place lookup
`sortedResults.find(r => r.athlete_id === runner.athleteId)`,
defaulting to `0` when the athlete is not found. -/
def scoringPlaceOf (sortedResults : List CombinedResult) (aid : String) : ℕ :=
  match sortedResults.find? (fun r => r.athlete_id = aid) with
  | some r => r.scoringPlace
  | none => 0

/-- Embeds `updateTeamScores`: each team's score becomes the sum of the
looked-up scoring places of its top five runners, then teams are
sorted ascending by score and given places `1..M`. -/
def updateTeamScores (teams : List TeamScore) (sortedResults : List CombinedResult) :
    List TeamScore :=
  let scored := teams.map (fun t =>
    { t with
      teamScore :=
        ((t.runners.take 5).map
          (fun rn : TeamRunner => scoringPlaceOf sortedResults rn.athleteId)).sum })
  enumMap (fun i t => { t with place := i + 1 }) 0
    (scored.insertionSort (fun a b => a.teamScore ≤ b.teamScore))

/-- The complete per-gender scoring pipeline of the combined-results
page, applied to one gender's results: team grouping, qualifying ids,
sorted results with places, and updated team scores. -/
def scoreGender (l : List CombinedResult) :
    List TeamScore × List IncompleteTeam × List CombinedResult :=
  let ci := calculateXcTimeTeamScores l
  let sorted := sortedWithPlaces l (qualifyingIds ci.1)
  (updateTeamScores ci.1 sorted, ci.2, sorted)

/-- The course record of the combined-results page: the normalization
rating `xc_time_rating` may be absent, and the page treats a falsy
rating (absent or zero) as missing. -/
structure Course where
  id : String
  name : String
  distance_meters : ℚ
  xc_time_rating : Option ℚ
deriving DecidableEq, Repr

/-- One raw result row of the combined page's query, pre-joined with
its athlete, school and race; `time_seconds` is in seconds and the
school reference may be empty. -/
structure ResultRow where
  id : String
  athlete_id : String
  school_id : String
  team_name : String
  time_seconds : ℚ
  race_gender : String
deriving DecidableEq, Repr

/-- The `combinedResults` construction of `CombinedResultsPage`:
`place = index + 1` over the query's rows, times converted to
centiseconds, and `xc_time = timeInCentiseconds * rating`. -/
def combinedResultsOf (rating : ℚ) (rows : List ResultRow) : List CombinedResult :=
  enumMap
    (fun i row =>
      { id := row.id
        athlete_id := row.athlete_id
        school_id := row.school_id
        team_name := row.team_name
        time_seconds := row.time_seconds * 100
        xc_time := row.time_seconds * 100 * rating
        race_gender := row.race_gender
        place := i + 1
        overallPlace := 0
        scoringPlace := 0 })
    0 rows

/-- The scoring core of `CombinedResultsPage`: fail when the course's
`xc_time_rating` is falsy (`if (!course?.xc_time_rating)`), otherwise
build the combined results and run the per-gender scoring pipelines
on the `race_gender === 'M'` and `race_gender === 'F'` partitions. -/
def combinedResultsPage (course : Course) (rows : List ResultRow) :
    Except String
      ((List TeamScore × List IncompleteTeam × List CombinedResult) ×
       (List TeamScore × List IncompleteTeam × List CombinedResult)) :=
  match course.xc_time_rating with
  | none => .error "Course rating not found"
  | some r =>
    if r = 0 then .error "Course rating not found"
    else
      let combined := combinedResultsOf r rows
      .ok (scoreGender (combined.filter (fun c => c.race_gender = "M")),
           scoreGender (combined.filter (fun c => c.race_gender = "F")))

/-- A pre-joined result row of the school-records page query
(`loadOverallXCRecords`); the query keeps only rows whose course has a
non-null `xc_time_rating`, so the rating is a plain rational here.
The meet date is exposed as `getFullYear`/zero-based `getMonth`. -/
structure RecordRow where
  id : String
  athlete_id : String
  athlete_gender : String
  graduation_year : ℤ
  race_gender : String
  time_seconds : ℚ
  xc_time_rating : ℚ
  meet_year : ℤ
  meet_month : ℤ
deriving DecidableEq, Repr

/-- A processed record row carrying the page's rounded XC time. -/
structure ProcessedRow where
  row : RecordRow
  xc_time : ℤ
deriving DecidableEq, Repr

/-- The `processedResults` step of `loadOverallXCRecords`:
`xc_time = Math.round(time_seconds * xc_time_rating)`. -/
def processedResults (rows : List RecordRow) : List ProcessedRow :=
  rows.map (fun r => { row := r, xc_time := round (r.time_seconds * r.xc_time_rating) })

/-- Boys filter of the records page:
`r.race?.gender === 'Boys' || r.athlete?.gender === 'M'`. -/
def boysXCResults (rows : List ProcessedRow) : List ProcessedRow :=
  rows.filter (fun r => r.row.race_gender = "Boys" ∨ r.row.athlete_gender = "M")

/-- The school-year-ending year of the athletic-year rule as computed
by the records page: `raceMonth >= 6 ? raceYear + 1 : raceYear`, with
`raceMonth` the zero-based month (6 = July). -/
def schoolYearEnding (year month : ℤ) : ℤ :=
  if 6 ≤ month then year + 1 else year

/-- The competition grade inferred by the records page:
`12 - (graduation_year - schoolYearEnding)`. -/
def gradeAt (graduationYear year month : ℤ) : ℤ :=
  12 - (graduationYear - schoolYearEnding year month)

/-- The per-grade bucket of the records page: results whose inferred
grade equals the target grade. -/
def gradeResults (rows : List ProcessedRow) (targetGrade : ℤ) : List ProcessedRow :=
  rows.filter (fun r =>
    gradeAt r.row.graduation_year r.row.meet_year r.row.meet_month = targetGrade)

/-- The record reduction
`reduce((prev, curr) => curr.xc_time < prev.xc_time ? curr : prev)`:
the first row attaining the minimal rounded XC time, `none` on an
empty pool (the page guards with `length > 0`). -/
def fastestXC : List ProcessedRow → Option ProcessedRow
  | [] => none
  | h :: t =>
    some (t.foldl (fun prev curr => if curr.xc_time < prev.xc_time then curr else prev) h)

/-- A result row of the school team-records query (`loadTeamRecords`),
pre-joined with the athlete's gender; times are in seconds. -/
structure TeamResultRow where
  athlete_id : String
  athlete_gender : String
  race_id : String
  time_seconds : ℚ
deriving DecidableEq, Repr

/-- Key-insertion step of the race-group `Map` of `loadTeamRecords`,
keyed by `` `${race_id}_${gender}` `` (race ids carry no underscore,
so the key is the pair). -/
def addRaceKey (ks : List (String × String)) (r : TeamResultRow) :
    List (String × String) :=
  if (r.race_id, r.athlete_gender) ∈ ks then ks else ks ++ [(r.race_id, r.athlete_gender)]

/-- Race-and-gender keys in `Map` insertion order. -/
def raceKeys (l : List TeamResultRow) : List (String × String) :=
  l.foldl addRaceKey []

/-- The per-key bucket of the race-group `Map`. -/
def raceGroup (l : List TeamResultRow) (k : String × String) : List TeamResultRow :=
  l.filter (fun r => r.race_id = k.1 ∧ r.athlete_gender = k.2)

/-- A team performance record of `loadTeamRecords`. -/
structure TeamRecord where
  race_id : String
  gender : String
  team_time : ℚ
  average_time : ℚ
  runner_times : List ℚ
deriving DecidableEq, Repr

instance : DecidableRel (fun a b : TeamResultRow => a.time_seconds ≤ b.time_seconds) :=
  fun a b => inferInstanceAs (Decidable (a.time_seconds ≤ b.time_seconds))

instance : IsTotal TeamResultRow (fun a b => a.time_seconds ≤ b.time_seconds) :=
  ⟨fun a b => le_total a.time_seconds b.time_seconds⟩

instance : IsTrans TeamResultRow (fun a b => a.time_seconds ≤ b.time_seconds) :=
  ⟨fun _ _ _ h h' => le_trans h h'⟩

/-- The team performance of one race group: defined only when the
group has at least five runners; the group is sorted ascending by raw
time and the team time is the sum of the first five times. -/
def teamRecordOf (k : String × String) (group : List TeamResultRow) :
    Option TeamRecord :=
  if group.length < 5 then none
  else
    let sorted := group.insertionSort (fun a b => a.time_seconds ≤ b.time_seconds)
    let top5 := sorted.take 5
    let teamTime := (top5.map (fun r => r.time_seconds)).sum
    some
      { race_id := k.1
        gender := k.2
        team_time := teamTime
        average_time := teamTime / 5
        runner_times := top5.map (fun r => r.time_seconds) }

instance : DecidableRel (fun a b : TeamRecord => a.team_time ≤ b.team_time) :=
  fun a b => inferInstanceAs (Decidable (a.team_time ≤ b.team_time))

instance : IsTotal TeamRecord (fun a b => a.team_time ≤ b.team_time) :=
  ⟨fun a b => le_total a.team_time b.team_time⟩

instance : IsTrans TeamRecord (fun a b => a.team_time ≤ b.team_time) :=
  ⟨fun _ _ _ h h' => le_trans h h'⟩

/-- All team performances of `loadTeamRecords`: one per race-gender
group with five or more runners, in `Map` iteration order. -/
def teamPerformances (l : List TeamResultRow) : List TeamRecord :=
  (raceKeys l).filterMap (fun k => teamRecordOf k (raceGroup l k))

/-- One gender's retained leaderboard of `loadTeamRecords`: that
gender's performances sorted ascending by team time, first ten kept. -/
def genderLeaderboard (perfs : List TeamRecord) (g : String) : List TeamRecord :=
  ((perfs.filter (fun t => t.gender = g)).insertionSort
    (fun a b => a.team_time ≤ b.team_time)).take 10

/-- Embeds `loadTeamRecords`: group the school's results by race and
gender, keep groups with five or more runners as team performances,
split by gender (`'M'` to boys, `'F'` to girls), sort each gender's
performances ascending by team time and keep the first ten. -/
def loadTeamRecords (l : List TeamResultRow) : List TeamRecord × List TeamRecord :=
  (genderLeaderboard (teamPerformances l) "M",
   genderLeaderboard (teamPerformances l) "F")

/-- A normalized result row consumed by `calculateBigMovers` on the
home page (`results_with_details` rows); `meet_date` is the timestamp
used in date comparisons. -/
structure MoverResult where
  athlete_id : String
  first_name : String
  last_name : String
  gender : String
  meet_date : ℤ
  normalized_time_seconds : ℚ
deriving DecidableEq, Repr

/-- A big-mover entry: athlete name, improvement percentage, gender. -/
structure BigMover where
  first_name : String
  last_name : String
  improvement_percentage : ℚ
  gender : String
deriving DecidableEq, Repr

instance : DecidableRel (fun a b : MoverResult => a.meet_date ≤ b.meet_date) :=
  fun a b => inferInstanceAs (Decidable (a.meet_date ≤ b.meet_date))

instance : IsTotal MoverResult (fun a b => a.meet_date ≤ b.meet_date) :=
  ⟨fun a b => le_total a.meet_date b.meet_date⟩

instance : IsTrans MoverResult (fun a b => a.meet_date ≤ b.meet_date) :=
  ⟨fun _ _ _ h h' => le_trans h h'⟩

/-- `Math.min(...)` over a list of rationals; the guarded call sites
only reach it with a non-empty list. -/
def mathMin : List ℚ → ℚ
  | [] => 0
  | h :: t => t.foldl min h

/-- The `reduce` of `calculateBigMovers` picking the recent result
with the smallest normalized time (first one on ties). -/
def bestRecentOf : List MoverResult → Option MoverResult
  | [] => none
  | h :: t =>
    some (t.foldl
      (fun best curr =>
        if curr.normalized_time_seconds < best.normalized_time_seconds then curr
        else best) h)

/-- The per-athlete body of `calculateBigMovers`: sort the athlete's
results by date, partition at the cutoff (`recent` is date `≥` cutoff,
`historical` is date `<` cutoff), bail out if either partition is
empty, and report an improvement only when the recent best beats the
historical best, as `(oldPR - newPR) / oldPR * 100`. -/
def bigMoverOf (results : List MoverResult) (cutoffDate : ℤ) : Option BigMover :=
  let sorted := results.insertionSort (fun a b => a.meet_date ≤ b.meet_date)
  let recent := sorted.filter (fun r => cutoffDate ≤ r.meet_date)
  if recent.length = 0 then none
  else
    let historical := sorted.filter (fun r => r.meet_date < cutoffDate)
    if historical.length = 0 then none
    else
      let oldPR := mathMin (historical.map (fun r => r.normalized_time_seconds))
      match bestRecentOf recent with
      | none => none
      | some best =>
        if best.normalized_time_seconds < oldPR then
          some
            { first_name := best.first_name
              last_name := best.last_name
              improvement_percentage :=
                (oldPR - best.normalized_time_seconds) / oldPR * 100
              gender := best.gender }
        else none

/-- Athlete-id keys of the `athleteResults` map, in insertion order;
a result is grouped only when its athlete id is truthy and its
normalized time is positive. -/
def athleteKeys (l : List MoverResult) : List String :=
  l.foldl
    (fun ks r =>
      if r.athlete_id = "" then ks
      else if ¬ 0 < r.normalized_time_seconds then ks
      else if r.athlete_id ∈ ks then ks else ks ++ [r.athlete_id]) []

/-- The per-athlete bucket of the `athleteResults` map. -/
def athleteGroup (l : List MoverResult) (aid : String) : List MoverResult :=
  l.filter (fun r => r.athlete_id = aid ∧ 0 < r.normalized_time_seconds)

instance : DecidableRel
    (fun a b : BigMover => b.improvement_percentage ≤ a.improvement_percentage) :=
  fun a b => inferInstanceAs (Decidable (b.improvement_percentage ≤ a.improvement_percentage))

instance : IsTotal BigMover
    (fun a b => b.improvement_percentage ≤ a.improvement_percentage) :=
  ⟨fun a b => le_total b.improvement_percentage a.improvement_percentage⟩

instance : IsTrans BigMover
    (fun a b => b.improvement_percentage ≤ a.improvement_percentage) :=
  ⟨fun _ _ _ h h' => le_trans h' h⟩

/-- Embeds `calculateBigMovers` of `src/app/page.tsx` exactly as
written: the improvements are computed per athlete, then the boys
list filters `mover.gender === 'M'` — and the girls list repeats the
very same `'M'` filter — before sorting descending by improvement and
keeping the first five. -/
def calculateBigMovers (allResults : List MoverResult) (cutoffDate : ℤ) :
    List BigMover × List BigMover :=
  let improvements := (athleteKeys allResults).filterMap
    (fun aid => bigMoverOf (athleteGroup allResults aid) cutoffDate)
  let boys := ((improvements.filter (fun m => m.gender = "M")).insertionSort
    (fun a b => b.improvement_percentage ≤ a.improvement_percentage)).take 5
  let girls := ((improvements.filter (fun m => m.gender = "M")).insertionSort
    (fun a b => b.improvement_percentage ≤ a.improvement_percentage)).take 5
  (boys, girls)

/-- A result row of the athlete page (`results_with_details` view):
raw time in seconds, course distance in miles, and the course's
difficulty rating. -/
structure AthleteResult where
  id : String
  time_seconds : ℚ
  distance_miles : ℚ
  difficulty_rating : ℚ
  season_year : ℤ
  meet_date : ℤ
deriving DecidableEq, Repr

/-- The athlete page's XC-time formula
`time_seconds * (3.1 / distance_miles) * (1 + (difficulty_rating - 3) * 0.02)`:
it derives the XC-equivalent time from the course's difficulty rating
and distance, not from its normalization rating. -/
def athleteXcTime (r : AthleteResult) : ℚ :=
  r.time_seconds * (31 / 10 / r.distance_miles) * (1 + (r.difficulty_rating - 3) * (2 / 100))

instance : DecidableRel (fun a b : AthleteResult => a.meet_date ≤ b.meet_date) :=
  fun a b => inferInstanceAs (Decidable (a.meet_date ≤ b.meet_date))

/-- The athlete page's season progression: the season's results in
meet-date order. -/
def seasonProgression (results : List AthleteResult) (currentSeason : ℤ) :
    List AthleteResult :=
  (results.filter (fun r => r.season_year = currentSeason)).insertionSort
    (fun a b => a.meet_date ≤ b.meet_date)

/-- The athlete page's season XC times, one per season result. -/
def seasonXcTimes (results : List AthleteResult) (currentSeason : ℤ) : List ℚ :=
  (seasonProgression results currentSeason).map athleteXcTime

/-- Literal combined-result builder for concrete race inputs. -/
def sampleRes (rid aid sid tn : String) (xc : ℚ) : CombinedResult :=
  { id := rid, athlete_id := aid, school_id := sid, team_name := tn,
    time_seconds := xc, xc_time := xc, race_gender := "M",
    place := 0, overallPlace := 0, scoringPlace := 0 }

/-- Concrete race: school `A` fields five runners (xc times
200..600), school `B` a single, fastest runner (xc time 100) — an
incomplete team, hence a non-qualifying runner. -/
def c2Race : List CombinedResult :=
  [sampleRes "rb" "b1" "B" "BHS" 100,
   sampleRes "r1" "a1" "A" "AHS" 200,
   sampleRes "r2" "a2" "A" "AHS" 300,
   sampleRes "r3" "a3" "A" "AHS" 400,
   sampleRes "r4" "a4" "A" "AHS" 500,
   sampleRes "r5" "a5" "A" "AHS" 600]

/-- Claim C2: a non-qualifying runner never affects any complete
team's score, i.e. removing one leaves every score unchanged. This
fails on the code: scoring places are positions in the full sorted
list including non-qualifying runners, so school A scores 20 with the
lone school-B runner present and 15 with it removed. -/
theorem c2_nonqualifying_runner_changes_team_score :
    ((scoreGender c2Race).1.map (fun t => t.teamScore) = [20]) ∧
    ((scoreGender (c2Race.filter (fun r => r.athlete_id ≠ "b1"))).1.map
      (fun t => t.teamScore) = [15]) ∧
    (20 : ℕ) ≠ 15 := by
  refine ⟨by decide, by decide, by decide⟩

/-- Mixed-gender input to `calculateBigMovers`: a female athlete
(`f1`) improving from 320 to 300 and a male athlete (`m1`) improving
from 400 to 350, with cutoff date 100 splitting each history. -/
def c6In : List MoverResult :=
  [{ athlete_id := "f1", first_name := "Fay", last_name := "Fast",
     gender := "F", meet_date := 0, normalized_time_seconds := 320 },
   { athlete_id := "f1", first_name := "Fay", last_name := "Fast",
     gender := "F", meet_date := 200, normalized_time_seconds := 300 },
   { athlete_id := "m1", first_name := "Moe", last_name := "Miles",
     gender := "M", meet_date := 0, normalized_time_seconds := 400 },
   { athlete_id := "m1", first_name := "Moe", last_name := "Miles",
     gender := "M", meet_date := 200, normalized_time_seconds := 350 }]

/-- Claim C6: the girls big-movers list contains only athletes whose
gender is `'F'`. This fails on the code: the girls branch filters
`mover.gender === 'M'`, so on the mixed input the girls list is
exactly the male mover even though the female athlete improved. -/
theorem c6_girls_list_contains_male :
    ((calculateBigMovers c6In 100).2.map (fun m => m.gender) = ["M"]) ∧
    ((bigMoverOf (athleteGroup c6In "f1") 100).map (fun m => m.gender) = some "F") ∧
    (∀ m ∈ (calculateBigMovers c6In 100).2, m.gender ≠ "F") := by
  refine ⟨by decide, by decide, by decide⟩

/-- A single input batch in which the same (athlete, race) pair
appears twice: athlete `a4` has two results (`r4`, `r5`) in the same
race. -/
def c8Batch : List CombinedResult :=
  [sampleRes "r1" "a1" "A" "AHS" 100,
   sampleRes "r2" "a2" "A" "AHS" 200,
   sampleRes "r3" "a3" "A" "AHS" 300,
   sampleRes "r4" "a4" "A" "AHS" 400,
   sampleRes "r5" "a4" "A" "AHS" 500]

/-- Claim C8: a duplicated (athlete, race) pair is surfaced as a
fatal `DuplicateResultError` and never placed, scored or
double-counted. This fails on the code: the scoring pipeline has no
error channel at all; on `c8Batch` it places the duplicated athlete
twice (overall places 4 and 5), treats the four-athlete school as a
complete five-runner team, and double-counts athlete `a4`'s scoring
place in the team score (1 + 2 + 3 + 4 + 4 = 14). -/
theorem c8_duplicate_pair_double_counted :
    ((scoreGender c8Batch).1.map (fun t => t.teamScore) = [14]) ∧
    (((scoreGender c8Batch).2.2.filter (fun e => e.athlete_id = "a4")).map
      (fun e => e.overallPlace) = [4, 5]) ∧
    ((scoreGender c8Batch).1.map (fun t => t.runners.length) = [5]) ∧
    (((c8Batch.map (fun r => r.athlete_id)).dedup).length = 4) := by
  refine ⟨by decide, by decide, by decide, by decide⟩

/-- A result on a 3.1-mile course of difficulty rating 4, and the
same result with difficulty rating 3; the course's normalization
rating plays no role in the athlete page's formula. -/
def c9Diff4 : AthleteResult :=
  { id := "p1", time_seconds := 600, distance_miles := 31 / 10,
    difficulty_rating := 4, season_year := 2025, meet_date := 0 }

/-- The same result with difficulty rating 3. -/
def c9Diff3 : AthleteResult :=
  { id := "p1", time_seconds := 600, distance_miles := 31 / 10,
    difficulty_rating := 3, season_year := 2025, meet_date := 0 }

/-- Claim C9: XC-equivalent times are derived from the normalization
rating alone and the difficulty multiplier is only descriptive. This
fails on the code: the athlete page computes season XC times as
`t * (3.1 / distance) * (1 + (difficulty - 3) * 0.02)`, so the same
600-second result yields 612 under difficulty 4 and 600 under
difficulty 3 — the XC time depends on the difficulty multiplier, and
on a course with normalization rating 1 it differs from `t * r`. -/
theorem c9_difficulty_multiplier_normalizes :
    (seasonXcTimes [c9Diff4] 2025 = [612]) ∧
    (seasonXcTimes [c9Diff3] 2025 = [600]) ∧
    ((612 : ℚ) ≠ 600 * 1) := by
  have h4 : seasonProgression [c9Diff4] 2025 = [c9Diff4] := rfl
  have h3 : seasonProgression [c9Diff3] 2025 = [c9Diff3] := rfl
  refine ⟨?_, ?_, by norm_num⟩
  · rw [seasonXcTimes, h4]
    simp only [List.map, athleteXcTime, c9Diff4]
    norm_num
  · rw [seasonXcTimes, h3]
    simp only [List.map, athleteXcTime, c9Diff3]
    norm_num

/-- A record row with raw time 305 s on a course rated 1.1: the exact
product is 335.5, which the records page rounds to 336. -/
def c3Row : RecordRow :=
  { id := "r1", athlete_id := "a1", athlete_gender := "M",
    graduation_year := 2026, race_gender := "Boys", time_seconds := 305,
    xc_time_rating := 11 / 10, meet_year := 2024, meet_month := 10 }

/-- Claim C3 counterexample: the claim says the normalized time the
engine uses equals exactly `t * r`, but the school-records page uses
`Math.round(t * r)`: at `t = 305`, `r = 1.1` it stores 336 while
`t * r = 335.5`. -/
theorem c3_records_page_rounds :
    ((processedResults [c3Row]).map (fun p => p.xc_time) = [336]) ∧
    ¬ ((processedResults [c3Row]).map (fun p => (p.xc_time : ℚ)) =
        [c3Row.time_seconds * c3Row.xc_time_rating]) := by
  constructor
  · simp only [processedResults, List.map, c3Row]
    norm_num [round_eq]
  · intro h
    simp only [processedResults, List.map, c3Row] at h
    rw [List.cons.injEq] at h
    have h1 := h.1
    norm_num [round_eq] at h1

theorem foldl_minXC (h : ProcessedRow) (t : List ProcessedRow) :
    (t.foldl (fun prev curr => if curr.xc_time < prev.xc_time then curr else prev) h) ∈ h :: t ∧
    (t.foldl (fun prev curr => if curr.xc_time < prev.xc_time then curr else prev) h).xc_time
      ≤ h.xc_time ∧
    ∀ p ∈ t,
      (t.foldl (fun prev curr => if curr.xc_time < prev.xc_time then curr else prev) h).xc_time
        ≤ p.xc_time := by
  induction t generalizing h with
  | nil => exact ⟨List.mem_singleton_self h, le_refl _, fun p hp => absurd hp (by simp)⟩
  | cons c t' ih =>
    simp only [List.foldl_cons]
    by_cases hc : c.xc_time < h.xc_time
    · rw [if_pos hc]
      obtain ⟨hmem, hle, hall⟩ := ih c
      refine ⟨?_, le_trans hle (le_of_lt hc), ?_⟩
      · rcases List.mem_cons.mp hmem with h1 | h1
        · exact List.mem_cons.mpr (Or.inr (List.mem_cons.mpr (Or.inl h1)))
        · exact List.mem_cons_of_mem _ (List.mem_cons_of_mem _ h1)
      · intro p hp
        rcases List.mem_cons.mp hp with h1 | h1
        · exact h1 ▸ hle
        · exact hall p h1
    · rw [if_neg hc]
      obtain ⟨hmem, hle, hall⟩ := ih h
      refine ⟨?_, hle, ?_⟩
      · rcases List.mem_cons.mp hmem with h1 | h1
        · exact List.mem_cons.mpr (Or.inl h1)
        · exact List.mem_cons_of_mem _ (List.mem_cons_of_mem _ h1)
      · intro p hp
        rcases List.mem_cons.mp hp with h1 | h1
        · exact h1 ▸ le_trans hle (le_of_not_lt hc)
        · exact hall p h1

theorem fastestXC_spec {rows : List ProcessedRow} (hne : rows ≠ []) :
    ∃ rec, fastestXC rows = some rec ∧ rec ∈ rows ∧
      ∀ p ∈ rows, rec.xc_time ≤ p.xc_time := by
  cases rows with
  | nil => exact absurd rfl hne
  | cons h t =>
    obtain ⟨hmem, hle, hall⟩ := foldl_minXC h t
    refine ⟨_, rfl, hmem, ?_⟩
    intro p hp
    rcases List.mem_cons.mp hp with h1 | h1
    · exact h1 ▸ hle
    · exact hall p h1

/-- Claim C4: the competition grade is inferred by the athletic-year
rule of the records page — school-year-ending year is the result year
plus one for months from July (zero-based month 6) on, grade is
`12 - (graduation_year - school_year_ending)` — so a 2024-11-04
result of a 2026 graduate is grade 11 and a 2024-03-01 result grade
10; a result sits in the grade-`t` bucket exactly when its inferred
grade is `t`, results with out-of-range grades sit in no grade
bucket for targets 9..12, yet the overall record still ranges over
every result, including those with out-of-range grades. -/
theorem c4_athletic_year_grades :
    (gradeAt 2026 2024 10 = 11) ∧
    (gradeAt 2026 2024 2 = 10) ∧
    (∀ (rows : List ProcessedRow) (t : ℤ) (p : ProcessedRow),
        p ∈ gradeResults rows t ↔
          p ∈ rows ∧
            gradeAt p.row.graduation_year p.row.meet_year p.row.meet_month = t) ∧
    (∀ (rows : List ProcessedRow) (p : ProcessedRow), p ∈ rows →
        (gradeAt p.row.graduation_year p.row.meet_year p.row.meet_month < 9 ∨
         12 < gradeAt p.row.graduation_year p.row.meet_year p.row.meet_month) →
        ∀ t : ℤ, 9 ≤ t → t ≤ 12 → p ∉ gradeResults rows t) ∧
    (∀ (rows : List ProcessedRow) (p : ProcessedRow), p ∈ rows →
        ∃ rec, fastestXC rows = some rec ∧ rec ∈ rows ∧
          rec.xc_time ≤ p.xc_time) := by
  refine ⟨by decide, by decide, ?_, ?_, ?_⟩
  · intro rows t p
    simp [gradeResults, List.mem_filter]
  · intro rows p _ hout t ht9 ht12 hmem
    simp only [gradeResults, List.mem_filter, decide_eq_true_eq] at hmem
    rcases hout with h | h <;> omega
  · intro rows p hp
    obtain ⟨rec, h1, h2, h3⟩ := fastestXC_spec (List.ne_nil_of_mem hp)
    exact ⟨rec, h1, h2, h3 p hp⟩

/-- Rows for the grade-exclusion witness: `c4Junior` has inferred
grade 11, `c4Grad13` inferred grade 13 (its athlete graduates in
2023, the result is from late 2024). -/
def c4Junior : ProcessedRow :=
  { row := { id := "r1", athlete_id := "a1", athlete_gender := "M",
             graduation_year := 2026, race_gender := "Boys", time_seconds := 300,
             xc_time_rating := 1, meet_year := 2024, meet_month := 10 },
    xc_time := 300 }

/-- A processed row whose inferred grade is 13. -/
def c4Grad13 : ProcessedRow :=
  { row := { id := "r2", athlete_id := "a2", athlete_gender := "M",
             graduation_year := 2024, race_gender := "Boys", time_seconds := 280,
             xc_time_rating := 1, meet_year := 2024, meet_month := 10 },
    xc_time := 280 }

/-- Concrete pool containing an out-of-range-grade row. -/
def c4Rows : List ProcessedRow := [c4Junior, c4Grad13]

/-- Witness for C4: on the concrete pool, the grade-13 row is
excluded from the grade-11 bucket (and every 9..12 bucket) while the
overall record still ranges over it — indeed it is the overall
fastest. -/
theorem c4_athletic_year_grades_witness :
    (c4Grad13 ∈ c4Rows) ∧
    (gradeAt c4Grad13.row.graduation_year c4Grad13.row.meet_year
        c4Grad13.row.meet_month < 9 ∨
      12 < gradeAt c4Grad13.row.graduation_year c4Grad13.row.meet_year
        c4Grad13.row.meet_month) ∧
    ((9 : ℤ) ≤ 11) ∧ ((11 : ℤ) ≤ 12) ∧
    (c4Grad13 ∉ gradeResults c4Rows 11) ∧
    (∃ rec, fastestXC c4Rows = some rec ∧ rec ∈ c4Rows ∧
      rec.xc_time ≤ c4Grad13.xc_time) :=
  ⟨by decide, by decide, by decide, by decide,
   c4_athletic_year_grades.2.2.2.1 c4Rows c4Grad13 (by decide) (by decide) 11
     (by decide) (by decide),
   c4_athletic_year_grades.2.2.2.2 c4Rows c4Grad13 (by decide)⟩

theorem foldl_min_spec (h : ℚ) (t : List ℚ) :
    t.foldl min h ∈ h :: t ∧ ∀ x ∈ h :: t, t.foldl min h ≤ x := by
  induction t generalizing h with
  | nil => exact ⟨List.mem_singleton_self h, by simp⟩
  | cons c t' ih =>
    simp only [List.foldl_cons]
    obtain ⟨hmem, hall⟩ := ih (min h c)
    have hle_h : t'.foldl min (min h c) ≤ h :=
      le_trans (hall _ (List.mem_cons_self _ _)) (min_le_left h c)
    have hle_c : t'.foldl min (min h c) ≤ c :=
      le_trans (hall _ (List.mem_cons_self _ _)) (min_le_right h c)
    constructor
    · rcases List.mem_cons.mp hmem with h1 | h1
      · rcases min_choice h c with h2 | h2
        · exact List.mem_cons.mpr (Or.inl (h1.trans h2))
        · exact List.mem_cons.mpr (Or.inr (List.mem_cons.mpr (Or.inl (h1.trans h2))))
      · exact List.mem_cons_of_mem _ (List.mem_cons_of_mem _ h1)
    · intro x hx
      rcases List.mem_cons.mp hx with h1 | h1
      · subst h1; exact hle_h
      · rcases List.mem_cons.mp h1 with h2 | h2
        · subst h2; exact hle_c
        · exact hall x (List.mem_cons_of_mem _ h2)

theorem mathMin_spec {l : List ℚ} (hne : l ≠ []) :
    mathMin l ∈ l ∧ ∀ x ∈ l, mathMin l ≤ x := by
  cases l with
  | nil => exact absurd rfl hne
  | cons h t => exact foldl_min_spec h t

theorem mathMin_perm {l l' : List ℚ} (hp : l.Perm l') : mathMin l = mathMin l' := by
  rcases eq_or_ne l [] with h | h
  · subst h
    rw [hp.nil_eq]
  · have h' : l' ≠ [] := by
      intro h0
      exact h (List.Perm.eq_nil (h0 ▸ hp))
    obtain ⟨hm, ha⟩ := mathMin_spec h
    obtain ⟨hm', ha'⟩ := mathMin_spec h'
    exact le_antisymm (ha _ (hp.mem_iff.mpr hm')) (ha' _ (hp.mem_iff.mp hm))

theorem foldl_bestRecent (h : MoverResult) (t : List MoverResult) :
    (t.foldl
        (fun best curr =>
          if curr.normalized_time_seconds < best.normalized_time_seconds then curr
          else best) h) ∈ h :: t ∧
    (t.foldl
        (fun best curr =>
          if curr.normalized_time_seconds < best.normalized_time_seconds then curr
          else best) h).normalized_time_seconds ≤ h.normalized_time_seconds ∧
    ∀ p ∈ t,
      (t.foldl
          (fun best curr =>
            if curr.normalized_time_seconds < best.normalized_time_seconds then curr
            else best) h).normalized_time_seconds ≤ p.normalized_time_seconds := by
  induction t generalizing h with
  | nil => exact ⟨List.mem_singleton_self h, le_refl _, fun p hp => absurd hp (by simp)⟩
  | cons c t' ih =>
    simp only [List.foldl_cons]
    by_cases hc : c.normalized_time_seconds < h.normalized_time_seconds
    · rw [if_pos hc]
      obtain ⟨hmem, hle, hall⟩ := ih c
      refine ⟨?_, le_trans hle (le_of_lt hc), ?_⟩
      · rcases List.mem_cons.mp hmem with h1 | h1
        · exact List.mem_cons.mpr (Or.inr (List.mem_cons.mpr (Or.inl h1)))
        · exact List.mem_cons_of_mem _ (List.mem_cons_of_mem _ h1)
      · intro p hp
        rcases List.mem_cons.mp hp with h1 | h1
        · subst h1; exact hle
        · exact hall p h1
    · rw [if_neg hc]
      obtain ⟨hmem, hle, hall⟩ := ih h
      refine ⟨?_, hle, ?_⟩
      · rcases List.mem_cons.mp hmem with h1 | h1
        · exact List.mem_cons.mpr (Or.inl h1)
        · exact List.mem_cons_of_mem _ (List.mem_cons_of_mem _ h1)
      · intro p hp
        rcases List.mem_cons.mp hp with h1 | h1
        · subst h1; exact le_trans hle (le_of_not_lt hc)
        · exact hall p h1

theorem bestRecentOf_spec {l : List MoverResult} {b : MoverResult}
    (hb : bestRecentOf l = some b) :
    b ∈ l ∧ b.normalized_time_seconds =
      mathMin (l.map (fun r => r.normalized_time_seconds)) := by
  cases l with
  | nil => exact absurd hb (by simp [bestRecentOf])
  | cons h t =>
    obtain ⟨hmem, hle, hall⟩ := foldl_bestRecent h t
    have hb' : b = t.foldl
        (fun best curr =>
          if curr.normalized_time_seconds < best.normalized_time_seconds then curr
          else best) h := by
      simpa [bestRecentOf] using hb.symm
    subst hb'
    refine ⟨hmem, ?_⟩
    have hmapne : (h :: t).map (fun r => r.normalized_time_seconds) ≠ [] := by simp
    obtain ⟨hmmem, hmall⟩ := mathMin_spec hmapne
    refine le_antisymm ?_ ?_
    · obtain ⟨r, hr, hrv⟩ := List.mem_map.mp hmmem
      rw [← hrv]
      rcases List.mem_cons.mp hr with h1 | h1
      · subst h1; exact hle
      · exact hall r h1
    · exact hmall _ (List.mem_map_of_mem _ hmem)

theorem bigMoverOf_characterization (history : List MoverResult) (cutoff : ℤ)
    (hr : history.filter (fun r => cutoff ≤ r.meet_date) ≠ [])
    (hh : history.filter (fun r => r.meet_date < cutoff) ≠ []) :
    ∃ b, b ∈ history.filter (fun r => cutoff ≤ r.meet_date) ∧
      b.normalized_time_seconds =
        mathMin ((history.filter (fun r => cutoff ≤ r.meet_date)).map
          (fun r => r.normalized_time_seconds)) ∧
      bigMoverOf history cutoff =
        (if b.normalized_time_seconds <
            mathMin ((history.filter (fun r => r.meet_date < cutoff)).map
              (fun r => r.normalized_time_seconds)) then
          some { first_name := b.first_name, last_name := b.last_name,
                 improvement_percentage :=
                   (mathMin ((history.filter (fun r => r.meet_date < cutoff)).map
                       (fun r => r.normalized_time_seconds)) -
                     b.normalized_time_seconds) /
                   mathMin ((history.filter (fun r => r.meet_date < cutoff)).map
                       (fun r => r.normalized_time_seconds)) * 100,
                 gender := b.gender }
        else none) := by
  have hperm : (history.insertionSort (fun a b => a.meet_date ≤ b.meet_date)).Perm
      history := List.perm_insertionSort _ _
  have hpr : ((history.insertionSort (fun a b => a.meet_date ≤ b.meet_date)).filter
      (fun r => cutoff ≤ r.meet_date)).Perm
      (history.filter (fun r => cutoff ≤ r.meet_date)) := hperm.filter _
  have hph : ((history.insertionSort (fun a b => a.meet_date ≤ b.meet_date)).filter
      (fun r => r.meet_date < cutoff)).Perm
      (history.filter (fun r => r.meet_date < cutoff)) := hperm.filter _
  have hrs : (history.insertionSort (fun a b => a.meet_date ≤ b.meet_date)).filter
      (fun r => cutoff ≤ r.meet_date) ≠ [] := by
    intro h0
    apply hr
    apply List.length_eq_zero.mp
    rw [← hpr.length_eq, h0]
    rfl
  have hhs : (history.insertionSort (fun a b => a.meet_date ≤ b.meet_date)).filter
      (fun r => r.meet_date < cutoff) ≠ [] := by
    intro h0
    apply hh
    apply List.length_eq_zero.mp
    rw [← hph.length_eq, h0]
    rfl
  have hbr : ∃ b, bestRecentOf
      ((history.insertionSort (fun a b => a.meet_date ≤ b.meet_date)).filter
        (fun r => cutoff ≤ r.meet_date)) = some b := by
    cases hc : (history.insertionSort (fun a b => a.meet_date ≤ b.meet_date)).filter
        (fun r => cutoff ≤ r.meet_date) with
    | nil => exact absurd hc hrs
    | cons a t => exact ⟨_, rfl⟩
  obtain ⟨b, hb⟩ := hbr
  obtain ⟨hbmem, hbval⟩ := bestRecentOf_spec hb
  have hminr : mathMin
      (((history.insertionSort (fun a b => a.meet_date ≤ b.meet_date)).filter
        (fun r => cutoff ≤ r.meet_date)).map (fun r => r.normalized_time_seconds)) =
      mathMin ((history.filter (fun r => cutoff ≤ r.meet_date)).map
        (fun r => r.normalized_time_seconds)) :=
    mathMin_perm (hpr.map _)
  have hminh : mathMin
      (((history.insertionSort (fun a b => a.meet_date ≤ b.meet_date)).filter
        (fun r => r.meet_date < cutoff)).map (fun r => r.normalized_time_seconds)) =
      mathMin ((history.filter (fun r => r.meet_date < cutoff)).map
        (fun r => r.normalized_time_seconds)) :=
    mathMin_perm (hph.map _)
  refine ⟨b, hpr.mem_iff.mp hbmem, by rw [hbval, hminr], ?_⟩
  rw [bigMoverOf]
  simp only [hb, hminh]
  rw [if_neg (fun h => hrs (List.length_eq_zero.mp h)),
    if_neg (fun h => hhs (List.length_eq_zero.mp h))]

/-- Athlete history for the concrete improvement example: a 320 s
normalized result before the cutoff and a 300 s one after it. -/
def c5History : List MoverResult :=
  [{ athlete_id := "f1", first_name := "Fay", last_name := "Fast",
     gender := "F", meet_date := 0, normalized_time_seconds := 320 },
   { athlete_id := "f1", first_name := "Fay", last_name := "Fast",
     gender := "F", meet_date := 200, normalized_time_seconds := 300 }]

/-- Athlete history with data before the cutoff only. -/
def c5OnlyBefore : List MoverResult :=
  [{ athlete_id := "f1", first_name := "Fay", last_name := "Fast",
     gender := "F", meet_date := 0, normalized_time_seconds := 320 }]

/-- Claim C5: with an empty partition on either side of the cutoff no
improvement is reported; otherwise, with `old_pr`/`new_pr` the minima
of the normalized times before / on-or-after the cutoff, an
improvement of `(old_pr - new_pr) / old_pr * 100` percent is reported
exactly when `new_pr < old_pr` and nothing (never a negative value)
otherwise; on `before = [320]`, `recent = [300]` the reported
percentage is 6.25. -/
theorem c5_trend_improvement :
    (∀ (history : List MoverResult) (cutoff : ℤ),
        (history.filter (fun r => cutoff ≤ r.meet_date) = [] ∨
         history.filter (fun r => r.meet_date < cutoff) = []) →
        bigMoverOf history cutoff = none) ∧
    (∀ (history : List MoverResult) (cutoff : ℤ),
        history.filter (fun r => cutoff ≤ r.meet_date) ≠ [] →
        history.filter (fun r => r.meet_date < cutoff) ≠ [] →
        (mathMin ((history.filter (fun r => cutoff ≤ r.meet_date)).map
              (fun r => r.normalized_time_seconds)) <
            mathMin ((history.filter (fun r => r.meet_date < cutoff)).map
              (fun r => r.normalized_time_seconds)) →
          ∃ m, bigMoverOf history cutoff = some m ∧
            m.improvement_percentage =
              (mathMin ((history.filter (fun r => r.meet_date < cutoff)).map
                  (fun r => r.normalized_time_seconds)) -
                mathMin ((history.filter (fun r => cutoff ≤ r.meet_date)).map
                  (fun r => r.normalized_time_seconds))) /
                mathMin ((history.filter (fun r => r.meet_date < cutoff)).map
                  (fun r => r.normalized_time_seconds)) * 100) ∧
        (mathMin ((history.filter (fun r => r.meet_date < cutoff)).map
              (fun r => r.normalized_time_seconds)) ≤
            mathMin ((history.filter (fun r => cutoff ≤ r.meet_date)).map
              (fun r => r.normalized_time_seconds)) →
          bigMoverOf history cutoff = none)) ∧
    (∃ m, bigMoverOf c5History 100 = some m ∧
      m.improvement_percentage = 25 / 4 ∧ m.gender = "F") ∧
    (bigMoverOf c5OnlyBefore 100 = none) := by
  refine ⟨?_, ?_, ?_, rfl⟩
  · intro history cutoff hcase
    have hperm : (history.insertionSort (fun a b => a.meet_date ≤ b.meet_date)).Perm
        history := List.perm_insertionSort _ _
    rcases hcase with hc | hc
    · have hlen : ((history.insertionSort (fun a b => a.meet_date ≤ b.meet_date)).filter
          (fun r => cutoff ≤ r.meet_date)).length = 0 := by
        rw [(hperm.filter _).length_eq, hc]
        rfl
      rw [bigMoverOf]
      simp [hlen]
    · have hlen : ((history.insertionSort (fun a b => a.meet_date ≤ b.meet_date)).filter
          (fun r => r.meet_date < cutoff)).length = 0 := by
        rw [(hperm.filter _).length_eq, hc]
        rfl
      rw [bigMoverOf]
      simp [hlen]
  · intro history cutoff hr hh
    obtain ⟨b, hbmem, hbval, heq⟩ := bigMoverOf_characterization history cutoff hr hh
    constructor
    · intro hlt
      rw [← hbval] at hlt
      rw [heq, if_pos hlt]
      exact ⟨_, rfl, by rw [hbval]⟩
    · intro hge
      rw [← hbval] at hge
      rw [heq, if_neg (not_lt.mpr hge)]
  · have hm : bigMoverOf c5History 100 = some
        { first_name := "Fay", last_name := "Fast",
          improvement_percentage := ((320 : ℚ) - 300) / 320 * 100,
          gender := "F" } := rfl
    exact ⟨_, hm, by norm_num, rfl⟩

/-- Witness for C5: the concrete history has both partitions
non-empty with recent minimum 300 below historical minimum 320, so an
improvement of `(320 - 300) / 320 * 100` percent is reported, while
the before-only history reports nothing. -/
theorem c5_trend_improvement_witness :
    (c5History.filter (fun r => (100 : ℤ) ≤ r.meet_date) ≠ []) ∧
    (c5History.filter (fun r => r.meet_date < (100 : ℤ)) ≠ []) ∧
    (mathMin ((c5History.filter (fun r => (100 : ℤ) ≤ r.meet_date)).map
        (fun r => r.normalized_time_seconds)) <
      mathMin ((c5History.filter (fun r => r.meet_date < (100 : ℤ))).map
        (fun r => r.normalized_time_seconds))) ∧
    (∃ m, bigMoverOf c5History 100 = some m ∧
      m.improvement_percentage =
        (mathMin ((c5History.filter (fun r => r.meet_date < (100 : ℤ))).map
            (fun r => r.normalized_time_seconds)) -
          mathMin ((c5History.filter (fun r => (100 : ℤ) ≤ r.meet_date)).map
            (fun r => r.normalized_time_seconds))) /
          mathMin ((c5History.filter (fun r => r.meet_date < (100 : ℤ))).map
            (fun r => r.normalized_time_seconds)) * 100) ∧
    (bigMoverOf c5OnlyBefore 100 = none) :=
  ⟨by decide, by decide, by decide,
   (c5_trend_improvement.2.1 c5History 100 (by decide) (by decide)).1 (by decide),
   c5_trend_improvement.1 c5OnlyBefore 100 (Or.inl (by decide))⟩

theorem enumMap_eq_map (g : α → β) : ∀ (i : ℕ) (l : List α),
    enumMap (fun _ a => g a) i l = l.map g
  | _, [] => rfl
  | i, a :: as => by simp [enumMap, enumMap_eq_map g (i + 1) as]

/-- Claim C3, amended: the combined-results page uses exactly
`t * rating` (with `t` in centiseconds) and fails with an error when
the course's `xc_time_rating` is absent or zero — never substituting
a rating of 1.0 — while the school-records computation uses the
rounded value `round(t * rating)` on rows whose course is rated (the
query excludes unrated courses). -/
theorem c3_normalization_amended :
    (∀ (course : Course) (rows : List ResultRow),
        course.xc_time_rating = none →
        combinedResultsPage course rows = .error "Course rating not found") ∧
    (∀ (course : Course) (rows : List ResultRow),
        course.xc_time_rating = some 0 →
        combinedResultsPage course rows = .error "Course rating not found") ∧
    (∀ (r : ℚ) (rows : List ResultRow),
        (combinedResultsOf r rows).map (fun c => c.xc_time) =
          rows.map (fun w => w.time_seconds * 100 * r) ∧
        (combinedResultsOf r rows).map (fun c => c.time_seconds) =
          rows.map (fun w => w.time_seconds * 100)) ∧
    (∀ rows : List RecordRow,
        (processedResults rows).map (fun p => p.xc_time) =
          rows.map (fun w => round (w.time_seconds * w.xc_time_rating))) := by
  refine ⟨?_, ?_, ?_, ?_⟩
  · intro course rows h
    rw [combinedResultsPage, h]
  · intro course rows h
    rw [combinedResultsPage, h]
    simp
  · intro r rows
    constructor
    · rw [combinedResultsOf, enumMap_map]
      exact enumMap_eq_map _ 0 rows
    · rw [combinedResultsOf, enumMap_map]
      exact enumMap_eq_map _ 0 rows
  · intro rows
    simp only [processedResults, List.map_map]
    rfl

/-- A course with no normalization rating. -/
def c3NoRating : Course :=
  { id := "c1", name := "Hilly", distance_meters := 5000, xc_time_rating := none }

/-- A course whose rating is present but zero (falsy in the page's
guard). -/
def c3ZeroRating : Course :=
  { id := "c2", name := "Flat", distance_meters := 5000, xc_time_rating := some 0 }

/-- Witness for the amended C3: the unrated and zero-rated courses
make the combined page fail, and the records computation on the
concrete row stores the rounded product. -/
theorem c3_normalization_amended_witness :
    (c3NoRating.xc_time_rating = none) ∧
    (combinedResultsPage c3NoRating [] = .error "Course rating not found") ∧
    (c3ZeroRating.xc_time_rating = some 0) ∧
    (combinedResultsPage c3ZeroRating [] = .error "Course rating not found") ∧
    ((processedResults [c3Row]).map (fun p => p.xc_time) =
      [c3Row].map (fun w => round (w.time_seconds * w.xc_time_rating))) :=
  ⟨rfl, c3_normalization_amended.1 c3NoRating [] rfl, rfl,
   c3_normalization_amended.2.1 c3ZeroRating [] rfl,
   c3_normalization_amended.2.2.2 [c3Row]⟩

/-- Claim C7: every recorded team performance comes from a
(race, gender) group of the school with at least five finishers and
its team time is the sum of the five smallest raw times of that
group; each gender's retained leaderboard contains only that gender's
recorded performances, is sorted ascending by team time, keeps at
most ten entries, and every performance left out is at least as slow
as every retained one. -/
theorem c7_team_bests (l : List TeamResultRow) (g : String) :
    (∀ p ∈ teamPerformances l, ∃ k ∈ raceKeys l,
        5 ≤ (raceGroup l k).length ∧
        ∃ S : Multiset ℚ,
          S ≤ (((raceGroup l k).map (fun w => w.time_seconds) : List ℚ) : Multiset ℚ) ∧
          Multiset.card S = 5 ∧ p.team_time = S.sum ∧
          ∀ x ∈ (((raceGroup l k).map (fun w => w.time_seconds) : List ℚ) : Multiset ℚ) - S,
            ∀ y ∈ S, y ≤ x) ∧
    (∀ q ∈ genderLeaderboard (teamPerformances l) g,
        q ∈ teamPerformances l ∧ q.gender = g) ∧
    ((genderLeaderboard (teamPerformances l) g).Pairwise
      (fun a b => a.team_time ≤ b.team_time)) ∧
    ((genderLeaderboard (teamPerformances l) g).length ≤ 10) ∧
    (∀ p ∈ (teamPerformances l).filter (fun t => t.gender = g),
        p ∉ genderLeaderboard (teamPerformances l) g →
        ∀ q ∈ genderLeaderboard (teamPerformances l) g, q.team_time ≤ p.team_time) := by
  refine ⟨?_, ?_, ?_, ?_, ?_⟩
  · intro p hp
    obtain ⟨k, hk, hrec⟩ := List.mem_filterMap.mp hp
    by_cases hlen : (raceGroup l k).length < 5
    · rw [teamRecordOf, if_pos hlen] at hrec
      exact absurd hrec (by simp)
    · refine ⟨k, hk, by omega, ?_⟩
      have hpv : p =
          { race_id := k.1
            gender := k.2
            team_time := ((((raceGroup l k).insertionSort
                (fun a b => a.time_seconds ≤ b.time_seconds)).take 5).map
              (fun r => r.time_seconds)).sum
            average_time := ((((raceGroup l k).insertionSort
                (fun a b => a.time_seconds ≤ b.time_seconds)).take 5).map
              (fun r => r.time_seconds)).sum / 5
            runner_times := (((raceGroup l k).insertionSort
                (fun a b => a.time_seconds ≤ b.time_seconds)).take 5).map
              (fun r => r.time_seconds) } := by
        rw [teamRecordOf, if_neg hlen] at hrec
        exact (Option.some.inj hrec).symm
      subst hpv
      have hperm : ((raceGroup l k).insertionSort
          (fun a b => a.time_seconds ≤ b.time_seconds)).Perm (raceGroup l k) :=
        List.perm_insertionSort _ _
      have hsorted : ((raceGroup l k).insertionSort
          (fun a b => a.time_seconds ≤ b.time_seconds)).Pairwise
          (fun a b => a.time_seconds ≤ b.time_seconds) :=
        List.sorted_insertionSort _ _
      have hsplit : ((raceGroup l k).insertionSort
            (fun a b => a.time_seconds ≤ b.time_seconds)).take 5 ++
          ((raceGroup l k).insertionSort
            (fun a b => a.time_seconds ≤ b.time_seconds)).drop 5 =
          (raceGroup l k).insertionSort
            (fun a b => a.time_seconds ≤ b.time_seconds) :=
        List.take_append_drop 5 _
      have hM : (((raceGroup l k).map (fun w => w.time_seconds) : List ℚ) : Multiset ℚ) =
          (((((raceGroup l k).insertionSort
              (fun a b => a.time_seconds ≤ b.time_seconds)).take 5).map
            (fun r => r.time_seconds) : List ℚ) : Multiset ℚ) +
          (((((raceGroup l k).insertionSort
              (fun a b => a.time_seconds ≤ b.time_seconds)).drop 5).map
            (fun r => r.time_seconds) : List ℚ) : Multiset ℚ) := by
        rw [Multiset.coe_add]
        apply Multiset.coe_eq_coe.mpr
        rw [← List.map_append, hsplit]
        exact ((hperm.map _).symm)
      refine ⟨(((((raceGroup l k).insertionSort
          (fun a b => a.time_seconds ≤ b.time_seconds)).take 5).map
        (fun r => r.time_seconds) : List ℚ) : Multiset ℚ), ?_, ?_,
        (Multiset.sum_coe _).symm, ?_⟩
      · rw [hM]
        exact Multiset.le_add_right _ _
      · rw [Multiset.coe_card, List.length_map, List.length_take,
          List.length_insertionSort]
        omega
      · intro x hx y hy
        rw [hM, add_tsub_cancel_left] at hx
        rw [Multiset.mem_coe] at hx hy
        obtain ⟨bx, hbx, hbxv⟩ := List.mem_map.mp hx
        obtain ⟨ay, hay, hayv⟩ := List.mem_map.mp hy
        rw [← hbxv, ← hayv]
        have hcross := (List.pairwise_append.mp (hsplit ▸ hsorted)).2.2
        exact hcross ay hay bx hbx
  · intro q hq
    have hq1 : q ∈ ((teamPerformances l).filter
        (fun t => t.gender = g)).insertionSort
        (fun a b => a.team_time ≤ b.team_time) :=
      List.take_subset 10 _ hq
    have hq2 : q ∈ (teamPerformances l).filter (fun t => t.gender = g) :=
      (List.perm_insertionSort _ _).subset hq1
    have hq3 := List.mem_filter.mp hq2
    exact ⟨hq3.1, by simpa using hq3.2⟩
  · exact (List.sorted_insertionSort _ _).sublist (List.take_sublist 10 _)
  · exact List.length_take_le 10 _
  · intro p hp hnp q hq
    have hperm : (((teamPerformances l).filter
        (fun t => t.gender = g)).insertionSort
        (fun a b => a.team_time ≤ b.team_time)).Perm
        ((teamPerformances l).filter (fun t => t.gender = g)) :=
      List.perm_insertionSort _ _
    have hps : p ∈ ((teamPerformances l).filter
        (fun t => t.gender = g)).insertionSort
        (fun a b => a.team_time ≤ b.team_time) := hperm.mem_iff.mpr hp
    have hsplit : (((teamPerformances l).filter
          (fun t => t.gender = g)).insertionSort
          (fun a b => a.team_time ≤ b.team_time)).take 10 ++
        (((teamPerformances l).filter
          (fun t => t.gender = g)).insertionSort
          (fun a b => a.team_time ≤ b.team_time)).drop 10 =
        ((teamPerformances l).filter
          (fun t => t.gender = g)).insertionSort
          (fun a b => a.team_time ≤ b.team_time) :=
      List.take_append_drop 10 _
    have hpd : p ∈ (((teamPerformances l).filter
        (fun t => t.gender = g)).insertionSort
        (fun a b => a.team_time ≤ b.team_time)).drop 10 := by
      rcases List.mem_append.mp (hsplit ▸ hps) with h1 | h1
      · exact absurd h1 hnp
      · exact h1
    have hsorted : (((teamPerformances l).filter
        (fun t => t.gender = g)).insertionSort
        (fun a b => a.team_time ≤ b.team_time)).Pairwise
        (fun a b => a.team_time ≤ b.team_time) :=
      List.sorted_insertionSort _ _
    exact (List.pairwise_append.mp (hsplit ▸ hsorted)).2.2 q hq p hpd

/-- Concrete school results: one race (`r1`), five male finishers. -/
def c7L : List TeamResultRow :=
  [{ athlete_id := "a1", athlete_gender := "M", race_id := "r1", time_seconds := 10 },
   { athlete_id := "a2", athlete_gender := "M", race_id := "r1", time_seconds := 20 },
   { athlete_id := "a3", athlete_gender := "M", race_id := "r1", time_seconds := 30 },
   { athlete_id := "a4", athlete_gender := "M", race_id := "r1", time_seconds := 40 },
   { athlete_id := "a5", athlete_gender := "M", race_id := "r1", time_seconds := 50 }]

/-- The single team performance computed from `c7L`. -/
def c7First : TeamRecord :=
  { race_id := "r1"
    gender := "M"
    team_time := ((((raceGroup c7L ("r1", "M")).insertionSort
        (fun a b => a.time_seconds ≤ b.time_seconds)).take 5).map
      (fun r => r.time_seconds)).sum
    average_time := ((((raceGroup c7L ("r1", "M")).insertionSort
        (fun a b => a.time_seconds ≤ b.time_seconds)).take 5).map
      (fun r => r.time_seconds)).sum / 5
    runner_times := (((raceGroup c7L ("r1", "M")).insertionSort
        (fun a b => a.time_seconds ≤ b.time_seconds)).take 5).map
      (fun r => r.time_seconds) }

/-- Witness for C7: the concrete five-finisher race yields a recorded
performance whose team time is the sum of the five smallest times. -/
theorem c7_team_bests_witness :
    (c7First ∈ teamPerformances c7L) ∧
    (∃ k ∈ raceKeys c7L,
        5 ≤ (raceGroup c7L k).length ∧
        ∃ S : Multiset ℚ,
          S ≤ (((raceGroup c7L k).map (fun w => w.time_seconds) : List ℚ) : Multiset ℚ) ∧
          Multiset.card S = 5 ∧ c7First.team_time = S.sum ∧
          ∀ x ∈ (((raceGroup c7L k).map (fun w => w.time_seconds) : List ℚ) : Multiset ℚ) - S,
            ∀ y ∈ S, y ≤ x) :=
  ⟨List.mem_singleton_self _,
   (c7_team_bests c7L "M").1 c7First (List.mem_singleton_self _)⟩

theorem map_nodup_inj (key : α → κ) : ∀ {l : List α}, (l.map key).Nodup →
    ∀ {a b : α}, a ∈ l → b ∈ l → key a = key b → a = b := by
  intro l
  induction l with
  | nil => intro _ a b ha; exact absurd ha (by simp)
  | cons c t ih =>
    intro hnd a b ha hb hk
    rw [List.map_cons, List.nodup_cons] at hnd
    rcases List.mem_cons.mp ha with h1 | h1 <;>
      rcases List.mem_cons.mp hb with h2 | h2
    · rw [h1, h2]
    · exact absurd (by rw [← h1, hk]; exact List.mem_map_of_mem key h2) hnd.1
    · exact absurd (by rw [← h2, ← hk]; exact List.mem_map_of_mem key h1) hnd.1
    · exact ih hnd.2 h1 h2 hk

theorem find?_athlete_unique : ∀ {s : List CombinedResult},
    (s.map (fun r => r.athlete_id)).Nodup → ∀ {e : CombinedResult}, e ∈ s →
      s.find? (fun r => r.athlete_id = e.athlete_id) = some e := by
  intro s
  induction s with
  | nil => intro _ e he; exact absurd he (by simp)
  | cons h t ih =>
    intro hnd e he
    rw [List.map_cons, List.nodup_cons] at hnd
    rcases List.mem_cons.mp he with h1 | h1
    · rw [h1]
      exact List.find?_cons_of_pos _ (by simp)
    · have hne : ¬ h.athlete_id = e.athlete_id := by
        intro hk
        exact hnd.1 (hk ▸ List.mem_map_of_mem _ h1)
      rw [List.find?_cons_of_neg _ (by simpa using hne)]
      exact ih hnd.2 h1

theorem filter_counting_enumMap : ∀ (s : List CombinedResult) (i : ℕ),
    (enumMap mkTeamRunner i s).filter
        (fun rn => rn.status = RunnerStatus.counting) =
      (enumMap mkTeamRunner i s).take (5 - i) := by
  intro s
  induction s with
  | nil => intro i; simp [enumMap]
  | cons a s' ih =>
    intro i
    simp only [enumMap, List.filter_cons]
    by_cases hi : i < 5
    · rw [if_pos (by simp [mkTeamRunner, hi]), ih (i + 1)]
      have h5 : 5 - i = (5 - (i + 1)) + 1 := by omega
      rw [h5, List.take_succ_cons]
    · have hst : ¬ (mkTeamRunner i a).status = RunnerStatus.counting := by
        by_cases hi7 : i < 7 <;> simp [mkTeamRunner, hi, hi7]
      rw [if_neg (by simpa using hst), ih (i + 1)]
      have h0 : 5 - i = 0 := by omega
      have h0' : 5 - (i + 1) = 0 := by omega
      rw [h0, h0']
      simp

theorem teamRunnersOf_length (g : List CombinedResult) :
    (teamRunnersOf g).length = g.length := by
  rw [teamRunnersOf, enumMap_length, List.length_insertionSort]

/-- Unfolded first component of `calculateXcTimeTeamScores`. -/
theorem calculateXcTimeTeamScores_fst (l : List CombinedResult) :
    (calculateXcTimeTeamScores l).1 =
      ((schoolKeys l).map (fun sid => (sid, schoolGroup l sid))).filterMap (fun e =>
        if e.2.length < 5 then none
        else some
          { schoolId := e.1
            schoolName := firstTeamName e.2
            place := 0
            totalTime := (((teamRunnersOf e.2).take 5).map (fun rn => rn.xcTime)).sum
            teamScore := 0
            runners := teamRunnersOf e.2 }) := rfl

/-- Unfolded second component of `calculateXcTimeTeamScores`. -/
theorem calculateXcTimeTeamScores_snd (l : List CombinedResult) :
    (calculateXcTimeTeamScores l).2 =
      (((schoolKeys l).map (fun sid => (sid, schoolGroup l sid))).filterMap (fun e =>
        if e.2.length < 5 then some
          { schoolId := e.1
            schoolName := firstTeamName e.2
            totalRunners := e.2.length
            runners := teamRunnersOf e.2 }
        else none)).insertionSort (fun a b => a.schoolName ≤ b.schoolName) := rfl

theorem mem_completeTeams {l : List CombinedResult} {t₀ : TeamScore}
    (h : t₀ ∈ (calculateXcTimeTeamScores l).1) :
    ∃ sid ∈ schoolKeys l, ¬ (schoolGroup l sid).length < 5 ∧
      t₀.runners = teamRunnersOf (schoolGroup l sid) := by
  rw [calculateXcTimeTeamScores_fst] at h
  obtain ⟨e, he, heq⟩ := List.mem_filterMap.mp h
  obtain ⟨sid, hsid, hev⟩ := List.mem_map.mp he
  by_cases hlen : e.2.length < 5
  · rw [if_pos hlen] at heq
    exact absurd heq (by simp)
  · rw [if_neg hlen] at heq
    have ht₀ := Option.some.inj heq
    refine ⟨sid, hsid, ?_, ?_⟩
    · rw [← hev] at hlen
      simpa using hlen
    · rw [← ht₀, ← hev]

theorem mem_updateTeamScores {teams : List TeamScore}
    {sorted : List CombinedResult} {t : TeamScore}
    (ht : t ∈ updateTeamScores teams sorted) :
    ∃ t₀ ∈ teams, t.runners = t₀.runners ∧
      t.teamScore = ((t₀.runners.take 5).map
        (fun rn : TeamRunner => scoringPlaceOf sorted rn.athleteId)).sum := by
  rw [updateTeamScores] at ht
  obtain ⟨j, a, _, hget, hval⟩ := mem_enumMap ht
  have ha : a ∈ (teams.map (fun t =>
      { t with
        teamScore :=
          ((t.runners.take 5).map
            (fun rn : TeamRunner => scoringPlaceOf sorted rn.athleteId)).sum })).insertionSort
      (fun a b => a.teamScore ≤ b.teamScore) := List.get?_mem hget
  have ha' := (List.perm_insertionSort _ _).subset ha
  obtain ⟨t₀, ht₀, hav⟩ := List.mem_map.mp ha'
  refine ⟨t₀, ht₀, ?_, ?_⟩
  · rw [hval, ← hav]
  · rw [hval, ← hav]

theorem mem_qualifyingIds_of {teams : List TeamScore} {t : TeamScore}
    (ht : t ∈ teams) {aid : String}
    (ha : aid ∈ (t.runners.take 7).map (fun rn : TeamRunner => rn.athleteId)) :
    aid ∈ qualifyingIds teams := by
  rw [qualifyingIds]
  suffices hgen : ∀ (ts : List TeamScore) (acc : List String),
      (aid ∈ acc ∨ ∃ u ∈ ts, aid ∈ (u.runners.take 7).map
        (fun rn : TeamRunner => rn.athleteId)) →
      aid ∈ ts.foldl (fun acc t =>
        acc ++ (t.runners.take 7).map (fun rn => rn.athleteId)) acc by
    exact hgen teams [] (Or.inr ⟨t, ht, ha⟩)
  intro ts
  induction ts with
  | nil =>
    intro acc hcase
    rcases hcase with h1 | h1
    · exact h1
    · obtain ⟨u, hu, _⟩ := h1
      exact absurd hu (by simp)
  | cons c ts' ih =>
    intro acc hcase
    simp only [List.foldl_cons]
    apply ih
    rcases hcase with h1 | h1
    · exact Or.inl (List.mem_append.mpr (Or.inl h1))
    · obtain ⟨u, hu, hua⟩ := h1
      rcases List.mem_cons.mp hu with h2 | h2
      · exact Or.inl (List.mem_append.mpr (Or.inr (h2 ▸ hua)))
      · exact Or.inr ⟨u, h2, hua⟩

theorem map_athleteId_sortedWithPlaces (qual : List String) :
    ∀ (i : ℕ) (s : List CombinedResult),
      (enumMap (placeAssign qual) i s).map (fun e => e.athlete_id) =
        s.map (fun e => e.athlete_id)
  | _, [] => rfl
  | i, a :: as => by
    simp [enumMap, placeAssign, map_athleteId_sortedWithPlaces qual (i + 1) as]

theorem enumMap_place_range : ∀ (i : ℕ) (s : List TeamScore),
    (enumMap (fun i t => { t with place := i + 1 }) i s).map (fun t => t.place) =
      List.range' (i + 1) s.length
  | _, [] => rfl
  | i, a :: as => by
    simp [enumMap, List.range', enumMap_place_range (i + 1) as]

/-- Claim C1: every complete team in the standings has exactly five
counting runners, its reported score is the sum of those runners'
scoring places (each counting runner's entry in the sorted results
carries that looked-up scoring place, and it is never the none-marker
`0`), and the standings are sorted ascending by team score with team
places assigned `1..M` in that order. Athlete ids are assumed
pairwise distinct (the ingestion invariant of one result per athlete
per race). -/
theorem c1_team_scoring (l : List CombinedResult)
    (hids : (l.map (fun r => r.athlete_id)).Nodup) :
    (∀ t ∈ (scoreGender l).1,
        (t.runners.filter (fun rn => rn.status = RunnerStatus.counting)).length = 5 ∧
        t.teamScore = ((t.runners.filter
            (fun rn => rn.status = RunnerStatus.counting)).map
          (fun rn : TeamRunner =>
            scoringPlaceOf (scoreGender l).2.2 rn.athleteId)).sum ∧
        (∀ rn ∈ t.runners.filter (fun rn => rn.status = RunnerStatus.counting),
          ∀ e ∈ (scoreGender l).2.2, e.athlete_id = rn.athleteId →
            e.scoringPlace = scoringPlaceOf (scoreGender l).2.2 rn.athleteId ∧
            e.scoringPlace ≠ 0)) ∧
    ((scoreGender l).1.Pairwise (fun a b => a.teamScore ≤ b.teamScore)) ∧
    ((scoreGender l).1.map (fun t => t.place) =
      List.range' 1 (scoreGender l).1.length) := by
  have hfst : (scoreGender l).1 =
      updateTeamScores (calculateXcTimeTeamScores l).1
        (sortedWithPlaces l (qualifyingIds (calculateXcTimeTeamScores l).1)) := rfl
  have hout : (scoreGender l).2.2 =
      sortedWithPlaces l (qualifyingIds (calculateXcTimeTeamScores l).1) := rfl
  refine ⟨?_, ?_, ?_⟩
  · intro t ht
    rw [hfst] at ht
    obtain ⟨t₀, ht₀, hrun, hscore⟩ := mem_updateTeamScores ht
    obtain ⟨sid, hsid, hlen, hrunners⟩ := mem_completeTeams ht₀
    have hfc : t₀.runners.filter (fun rn => rn.status = RunnerStatus.counting) =
        t₀.runners.take 5 := by
      rw [hrunners, teamRunnersOf]
      simpa using filter_counting_enumMap ((schoolGroup l sid).insertionSort xcLe) 0
    have hlen5 : (t₀.runners.take 5).length = 5 := by
      rw [hrunners, List.length_take, teamRunnersOf_length]
      omega
    refine ⟨?_, ?_, ?_⟩
    · rw [hrun, hfc]
      exact hlen5
    · rw [hout, hrun, hfc]
      exact hscore
    · intro rn hrn e he heq
      rw [hout] at he ⊢
      rw [hrun, hfc] at hrn
      have h57 : rn ∈ t₀.runners.take 7 := by
        have h55 : (t₀.runners.take 7).take 5 = t₀.runners.take 5 := by
          rw [List.take_take]
          norm_num
        exact List.take_subset 5 _ (h55 ▸ hrn)
      have hqual : rn.athleteId ∈ qualifyingIds (calculateXcTimeTeamScores l).1 :=
        mem_qualifyingIds_of ht₀ (List.mem_map_of_mem _ h57)
      have hnout : ((sortedWithPlaces l
          (qualifyingIds (calculateXcTimeTeamScores l).1)).map
          (fun e => e.athlete_id)).Nodup := by
        rw [sortedWithPlaces, map_athleteId_sortedWithPlaces]
        exact ((List.perm_insertionSort xcLe l).map _).nodup_iff.mpr hids
      have hfind := find?_athlete_unique hnout he
      constructor
      · rw [← heq, scoringPlaceOf, hfind]
      · obtain ⟨j, a0, _, hget, hev⟩ := mem_enumMap
          (by rw [sortedWithPlaces] at he; exact he)
        have haid : a0.athlete_id ∈
            qualifyingIds (calculateXcTimeTeamScores l).1 := by
          have : a0.athlete_id = rn.athleteId := by
            rw [← heq, hev]
            rfl
          rw [this]
          exact hqual
        rw [hev, placeAssign]
        simp [haid]
  · rw [hfst, updateTeamScores]
    exact @enumMap_pairwise TeamScore TeamScore
      (fun a b => a.teamScore ≤ b.teamScore)
      (fun a b => a.teamScore ≤ b.teamScore)
      (fun i t => { t with place := i + 1 })
      (fun _ _ _ _ hab => hab) 0 _
      (List.sorted_insertionSort _ _)
  · rw [hfst, updateTeamScores, enumMap_length]
    exact enumMap_place_range 0 _

/-- Witness for C1: the concrete race has pairwise-distinct athlete
ids, so its standings satisfy the scoring-sum and ordering
properties. -/
theorem c1_team_scoring_witness :
    ((c2Race.map (fun r => r.athlete_id)).Nodup) ∧
    ((∀ t ∈ (scoreGender c2Race).1,
        (t.runners.filter (fun rn => rn.status = RunnerStatus.counting)).length = 5 ∧
        t.teamScore = ((t.runners.filter
            (fun rn => rn.status = RunnerStatus.counting)).map
          (fun rn : TeamRunner =>
            scoringPlaceOf (scoreGender c2Race).2.2 rn.athleteId)).sum ∧
        (∀ rn ∈ t.runners.filter (fun rn => rn.status = RunnerStatus.counting),
          ∀ e ∈ (scoreGender c2Race).2.2, e.athlete_id = rn.athleteId →
            e.scoringPlace = scoringPlaceOf (scoreGender c2Race).2.2 rn.athleteId ∧
            e.scoringPlace ≠ 0)) ∧
      ((scoreGender c2Race).1.Pairwise (fun a b => a.teamScore ≤ b.teamScore)) ∧
      ((scoreGender c2Race).1.map (fun t => t.place) =
        List.range' 1 (scoreGender c2Race).1.length)) :=
  ⟨by decide, c1_team_scoring c2Race (by decide)⟩

/-- Concrete race for C10: a result with an empty school reference
(`x1`, fastest) and a lone school-B runner (`b1`, slower, member of
an incomplete team and hence without a scoring place). -/
def c10Race : List CombinedResult :=
  [sampleRes "rx" "x1" "" "Unknown School" 100,
   sampleRes "rb" "b1" "B" "BHS" 200]

/-- Claim C10 counterexample: the claim says every slower runner's
overall place *and scoring place* are one larger than without the
empty-school result; the overall place of `b1` does shift from 1 to
2, but its scoring place is the none-marker `0` in both runs (it is
non-qualifying), not one larger. -/
theorem c10_scoring_place_not_shifted :
    (scoringPlaceOf (scoreGender c10Race).2.2 "b1" = 0) ∧
    (scoringPlaceOf
      (scoreGender (c10Race.filter (fun c => c.athlete_id ≠ "x1"))).2.2 "b1" = 0) ∧
    ¬ (scoringPlaceOf (scoreGender c10Race).2.2 "b1" =
        scoringPlaceOf
          (scoreGender (c10Race.filter (fun c => c.athlete_id ≠ "x1"))).2.2 "b1" + 1) ∧
    (∃ e ∈ (scoreGender c10Race).2.2, e.athlete_id = "b1" ∧ e.overallPlace = 2) ∧
    (∃ e ∈ (scoreGender (c10Race.filter (fun c => c.athlete_id ≠ "x1"))).2.2,
      e.athlete_id = "b1" ∧ e.overallPlace = 1) := by
  refine ⟨by decide, by decide, by decide, by decide, by decide⟩

theorem orderedInsert_erase_comm [DecidableEq α] {r : α → α → Prop} [DecidableRel r]
    [IsTrans α r] (a : α) :
    ∀ {s : List α}, s.Sorted r → ∀ {x : α}, x ∈ s → a ≠ x →
      (s.erase x).orderedInsert r a = (s.orderedInsert r a).erase x := by
  intro s
  induction s with
  | nil => intro _ x hx; exact absurd hx (by simp)
  | cons b ys ih =>
    intro hs x hx hax
    rw [List.sorted_cons] at hs
    by_cases hxb : x = b
    · have haxb : a ≠ b := by rw [← hxb]; exact hax
      rw [hxb, List.erase_cons_head]
      by_cases hab : r a b
      · rw [List.orderedInsert, if_pos hab,
          List.erase_cons_tail (not_beq_of_ne haxb), List.erase_cons_head]
        cases ys with
        | nil => rfl
        | cons c zs =>
          rw [List.orderedInsert,
            if_pos (trans_of r hab (hs.1 c (List.mem_cons_self c zs)))]
      · rw [List.orderedInsert, if_neg hab, List.erase_cons_head]
    · have hbx : b ≠ x := fun h => hxb h.symm
      have hxys : x ∈ ys := by
        rcases List.mem_cons.mp hx with h1 | h1
        · exact absurd h1 hxb
        · exact h1
      rw [List.erase_cons_tail (not_beq_of_ne hbx)]
      by_cases hab : r a b
      · rw [List.orderedInsert, if_pos hab, List.orderedInsert, if_pos hab,
          List.erase_cons_tail (not_beq_of_ne hax),
          List.erase_cons_tail (not_beq_of_ne hbx)]
      · rw [List.orderedInsert, if_neg hab, List.orderedInsert, if_neg hab,
          List.erase_cons_tail (not_beq_of_ne hbx), ih hs.2 hxys hax]

theorem insertionSort_erase [DecidableEq α] {r : α → α → Prop} [DecidableRel r]
    [IsTotal α r] [IsTrans α r] :
    ∀ {l : List α}, l.Nodup → ∀ {x : α}, x ∈ l →
      (l.erase x).insertionSort r = (l.insertionSort r).erase x := by
  intro l
  induction l with
  | nil => intro _ x hx; exact absurd hx (by simp)
  | cons c t ih =>
    intro hnd x hx
    rw [List.nodup_cons] at hnd
    by_cases hxc : x = c
    · rw [hxc, List.erase_cons_head, List.insertionSort]
      have hcn : c ∉ t.insertionSort r := fun h =>
        hnd.1 ((List.mem_insertionSort r).mp h)
      rw [List.erase_orderedInsert_of_not_mem hcn]
    · have hcx : c ≠ x := fun h => hxc h.symm
      have hxt : x ∈ t := by
        rcases List.mem_cons.mp hx with h1 | h1
        · exact absurd h1 hxc
        · exact h1
      rw [List.erase_cons_tail (not_beq_of_ne hcx), List.insertionSort,
        List.insertionSort, ih hnd.2 hxt]
      exact orderedInsert_erase_comm c (List.sorted_insertionSort r t)
        ((List.mem_insertionSort r).mpr hxt) hcx

theorem foldl_addSchoolKey_erase {x : CombinedResult} (hxs : x.school_id = "") :
    ∀ (l : List CombinedResult) (acc : List String),
      (l.erase x).foldl addSchoolKey acc = l.foldl addSchoolKey acc := by
  intro l
  induction l with
  | nil => intro acc; rfl
  | cons c t ih =>
    intro acc
    by_cases hcx : c = x
    · rw [hcx, List.erase_cons_head, List.foldl_cons, addSchoolKey, if_pos hxs]
    · rw [List.erase_cons_tail (not_beq_of_ne hcx), List.foldl_cons,
        List.foldl_cons, ih]

theorem schoolKeys_erase {l : List CombinedResult} {x : CombinedResult}
    (hxs : x.school_id = "") : schoolKeys (l.erase x) = schoolKeys l :=
  foldl_addSchoolKey_erase hxs l []

theorem filter_erase [DecidableEq α] (p : α → Bool) {x : α} (hx : p x = false) :
    ∀ (l : List α), (l.erase x).filter p = l.filter p := by
  intro l
  induction l with
  | nil => rfl
  | cons c t ih =>
    by_cases hcx : c = x
    · rw [hcx, List.erase_cons_head, List.filter_cons, hx]
      simp
    · rw [List.erase_cons_tail (not_beq_of_ne hcx), List.filter_cons,
        List.filter_cons, ih]

theorem schoolKeys_ne_empty {l : List CombinedResult} :
    ∀ sid ∈ schoolKeys l, sid ≠ "" := by
  rw [schoolKeys]
  suffices hgen : ∀ (l : List CombinedResult) (acc : List String),
      (∀ s ∈ acc, s ≠ "") → ∀ s ∈ l.foldl addSchoolKey acc, s ≠ "" from
    hgen l [] (by simp)
  intro l
  induction l with
  | nil => intro acc hacc; exact hacc
  | cons c t ih =>
    intro acc hacc
    apply ih
    intro s hs
    rw [addSchoolKey] at hs
    by_cases h1 : c.school_id = ""
    · rw [if_pos h1] at hs
      exact hacc s hs
    · rw [if_neg h1] at hs
      by_cases h2 : c.school_id ∈ acc
      · rw [if_pos h2] at hs
        exact hacc s hs
      · rw [if_neg h2] at hs
        rcases List.mem_append.mp hs with h3 | h3
        · exact hacc s h3
        · rw [List.mem_singleton.mp h3]
          exact h1

theorem calculateXcTimeTeamScores_erase {l : List CombinedResult}
    {x : CombinedResult} (hxs : x.school_id = "") :
    calculateXcTimeTeamScores (l.erase x) = calculateXcTimeTeamScores l := by
  rw [calculateXcTimeTeamScores, calculateXcTimeTeamScores, schoolKeys_erase hxs]
  congr 1
  apply List.map_congr_left
  intro sid hsid
  have hgrp : schoolGroup (l.erase x) sid = schoolGroup l sid := by
    rw [schoolGroup, schoolGroup]
    apply filter_erase
    simp only [decide_eq_false_iff_not]
    rw [hxs]
    exact fun h => schoolKeys_ne_empty sid hsid h.symm
  rw [hgrp]

theorem find?_enumMap_placeAssign (qual : List String) (aid : String) :
    ∀ (u : List CombinedResult) (i : ℕ) (v : List CombinedResult)
      (r : CombinedResult), r.athlete_id = aid →
      (∀ a ∈ u, a.athlete_id ≠ aid) →
      (enumMap (placeAssign qual) i (u ++ r :: v)).find?
        (fun e => e.athlete_id = aid) = some (placeAssign qual (i + u.length) r) := by
  intro u
  induction u with
  | nil =>
    intro i v r hra _
    rw [List.nil_append]
    show (enumMap (placeAssign qual) i (r :: v)).find? (fun e => e.athlete_id = aid) = _
    rw [enumMap, List.find?_cons_of_pos _ (by simp [placeAssign, hra])]
    simp
  | cons a u' ih =>
    intro i v r hra hu
    have ha1 : a.athlete_id ≠ aid := hu a (List.mem_cons_self a u')
    rw [List.cons_append, enumMap,
      List.find?_cons_of_neg _ (by simp [placeAssign, ha1]),
      ih (i + 1) v r hra (fun b hb => hu b (List.mem_cons_of_mem a hb))]
    have : i + 1 + u'.length = i + (a :: u').length := by
      simp
      omega
    rw [this]

theorem runner_from_group {g : List CombinedResult} {rn : TeamRunner}
    (hrn : rn ∈ teamRunnersOf g) : ∃ a ∈ g, rn.athleteId = a.athlete_id := by
  rw [teamRunnersOf] at hrn
  obtain ⟨j, a, _, hget, hv⟩ := mem_enumMap hrn
  have ha : a ∈ g.insertionSort xcLe := List.get?_mem hget
  exact ⟨a, (List.perm_insertionSort xcLe g).subset ha, by rw [hv]; rfl⟩

theorem complete_team_runner_school {l : List CombinedResult} {t : TeamScore}
    (ht : t ∈ (calculateXcTimeTeamScores l).1) {rn : TeamRunner}
    (hrn : rn ∈ t.runners) :
    ∃ a ∈ l, a.school_id ≠ "" ∧ rn.athleteId = a.athlete_id := by
  obtain ⟨sid, hsid, _, hrunners⟩ := mem_completeTeams ht
  rw [hrunners] at hrn
  obtain ⟨a, ha, haid⟩ := runner_from_group hrn
  rw [schoolGroup, List.mem_filter] at ha
  refine ⟨a, ha.1, ?_, haid⟩
  have : a.school_id = sid := by simpa using ha.2
  rw [this]
  exact schoolKeys_ne_empty sid hsid

theorem incomplete_team_runner_school {l : List CombinedResult}
    {t : IncompleteTeam} (ht : t ∈ (calculateXcTimeTeamScores l).2)
    {rn : TeamRunner} (hrn : rn ∈ t.runners) :
    ∃ a ∈ l, a.school_id ≠ "" ∧ rn.athleteId = a.athlete_id := by
  rw [calculateXcTimeTeamScores_snd] at ht
  have ht' := (List.perm_insertionSort _ _).subset ht
  obtain ⟨e, he, heq⟩ := List.mem_filterMap.mp ht'
  obtain ⟨sid, hsid, hev⟩ := List.mem_map.mp he
  by_cases hlen : e.2.length < 5
  · rw [if_pos hlen] at heq
    have htv := Option.some.inj heq
    have hrunners : t.runners = teamRunnersOf (schoolGroup l sid) := by
      rw [← htv, ← hev]
    rw [hrunners] at hrn
    obtain ⟨a, ha, haid⟩ := runner_from_group hrn
    rw [schoolGroup, List.mem_filter] at ha
    refine ⟨a, ha.1, ?_, haid⟩
    have : a.school_id = sid := by simpa using ha.2
    rw [this]
    exact schoolKeys_ne_empty sid hsid
  · rw [if_neg hlen] at heq
    exact absurd heq (by simp)

/-- Claim C10, amended: a result with an empty school reference is
excluded from both the complete-team and incomplete-team outputs yet
still occupies a position in the overall placement ordering: for any
strictly slower runner, the overall place with the empty-school
result present is one larger than with it removed, and the same holds
for the scoring place of qualifying runners, while non-qualifying
runners keep the none-marker scoring place `0` in both runs. -/
theorem c10_empty_school_amended (l : List CombinedResult) (x r : CombinedResult)
    (hids : (l.map (fun c => c.athlete_id)).Nodup)
    (hx : x ∈ l) (hxs : x.school_id = "")
    (hr : r ∈ l) (hlt : x.xc_time < r.xc_time) :
    (∀ t ∈ (scoreGender l).1, ∀ rn ∈ t.runners, rn.athleteId ≠ x.athlete_id) ∧
    (∀ t ∈ (scoreGender l).2.1, ∀ rn ∈ t.runners, rn.athleteId ≠ x.athlete_id) ∧
    (∃ ex ∈ (scoreGender l).2.2, ex.athlete_id = x.athlete_id) ∧
    (∃ e' ∈ (scoreGender (l.erase x)).2.2, e'.athlete_id = r.athlete_id ∧
      ∃ e ∈ (scoreGender l).2.2, e.athlete_id = r.athlete_id ∧
        e.overallPlace = e'.overallPlace + 1 ∧
        (e.scoringPlace ≠ 0 → e.scoringPlace = e'.scoringPlace + 1) ∧
        (e.scoringPlace = 0 → e'.scoringPlace = 0)) := by
  have hnd : l.Nodup := List.Nodup.of_map _ hids
  have hxne : ∀ a : CombinedResult, a ∈ l → a.school_id ≠ "" →
      a.athlete_id ≠ x.athlete_id := by
    intro a ha hane heq
    apply hane
    rw [map_nodup_inj (fun c => c.athlete_id) hids ha hx heq]
    exact hxs
  refine ⟨?_, ?_, ?_, ?_⟩
  · intro t ht rn hrn
    have ht' : t ∈ updateTeamScores (calculateXcTimeTeamScores l).1
        (sortedWithPlaces l (qualifyingIds (calculateXcTimeTeamScores l).1)) := ht
    obtain ⟨t₀, ht₀, hrun, _⟩ := mem_updateTeamScores ht'
    rw [hrun] at hrn
    obtain ⟨a, ha, hane, haid⟩ := complete_team_runner_school ht₀ hrn
    rw [haid]
    exact hxne a ha hane
  · intro t ht rn hrn
    have ht' : t ∈ (calculateXcTimeTeamScores l).2 := ht
    obtain ⟨a, ha, hane, haid⟩ := incomplete_team_runner_school ht' hrn
    rw [haid]
    exact hxne a ha hane
  · have hxe : x ∈ l.insertionSort xcLe := (List.mem_insertionSort xcLe).mpr hx
    obtain ⟨u, v, huv⟩ := List.append_of_mem hxe
    have hrfl : (scoreGender l).2.2 = enumMap
        (placeAssign (qualifyingIds (calculateXcTimeTeamScores l).1)) 0
        (l.insertionSort xcLe) := rfl
    rw [hrfl, huv, enumMap_append]
    refine ⟨placeAssign (qualifyingIds (calculateXcTimeTeamScores l).1)
      (0 + u.length) x, ?_, rfl⟩
    apply List.mem_append.mpr
    right
    rw [enumMap]
    exact List.mem_cons_self _ _
  · have hperm : (l.insertionSort xcLe).Perm l := List.perm_insertionSort xcLe l
    have hsorted : (l.insertionSort xcLe).Pairwise xcLe :=
      List.sorted_insertionSort xcLe l
    have hnds : (l.insertionSort xcLe).Nodup := hperm.nodup_iff.mpr hnd
    have hidss : ((l.insertionSort xcLe).map (fun c => c.athlete_id)).Nodup :=
      ((hperm.map _).nodup_iff).mpr hids
    have hxe : x ∈ l.insertionSort xcLe := (List.mem_insertionSort xcLe).mpr hx
    have hre : r ∈ l.insertionSort xcLe := (List.mem_insertionSort xcLe).mpr hr
    have hrx : r ≠ x := by
      intro h
      rw [h] at hlt
      exact lt_irrefl _ hlt
    obtain ⟨u, w, hxnu, hsplit, herase⟩ := List.exists_erase_eq hxe
    have hrw : r ∈ w := by
      have hru : r ∈ u ++ x :: w := hsplit ▸ hre
      rcases List.mem_append.mp hru with h1 | h1
      · have hpw : (u ++ x :: w).Pairwise xcLe := hsplit ▸ hsorted
        have hcross := (List.pairwise_append.mp hpw).2.2
        have hrlex : xcLe r x := hcross r h1 x (List.mem_cons_self x w)
        exact absurd hlt (not_lt.mpr hrlex)
      · rcases List.mem_cons.mp h1 with h2 | h2
        · exact absurd h2 hrx
        · exact h2
    obtain ⟨p, q, hw⟩ := List.append_of_mem hrw
    have hs2 : l.insertionSort xcLe = (u ++ x :: p) ++ r :: q := by
      rw [hsplit, hw]
      simp
    have hU : ∀ a ∈ u ++ x :: p, a.athlete_id ≠ r.athlete_id := by
      intro a ha heq
      have has : a ∈ l.insertionSort xcLe := by
        rw [hs2]
        exact List.mem_append.mpr (Or.inl ha)
      have har : a = r := map_nodup_inj (fun c => c.athlete_id) hidss has hre heq
      have hnd2 : ((u ++ x :: p) ++ r :: q).Nodup := hs2 ▸ hnds
      have hdisj := (List.nodup_append.mp hnd2).2.2
      exact hdisj (har ▸ ha) (List.mem_cons_self r q)
    have hUp : ∀ a ∈ u ++ p, a.athlete_id ≠ r.athlete_id := by
      intro a ha
      apply hU
      rcases List.mem_append.mp ha with h1 | h1
      · exact List.mem_append.mpr (Or.inl h1)
      · exact List.mem_append.mpr (Or.inr (List.mem_cons_of_mem x h1))
    have hsE : (l.erase x).insertionSort xcLe = (u ++ p) ++ r :: q := by
      rw [insertionSort_erase hnd hx, herase, hw]
      simp
    have hqeq : qualifyingIds (calculateXcTimeTeamScores (l.erase x)).1 =
        qualifyingIds (calculateXcTimeTeamScores l).1 := by
      rw [calculateXcTimeTeamScores_erase hxs]
    have hfind1 : (sortedWithPlaces l
        (qualifyingIds (calculateXcTimeTeamScores l).1)).find?
          (fun e => e.athlete_id = r.athlete_id) =
        some (placeAssign (qualifyingIds (calculateXcTimeTeamScores l).1)
          (0 + (u ++ x :: p).length) r) := by
      rw [sortedWithPlaces, hs2]
      exact find?_enumMap_placeAssign _ _ (u ++ x :: p) 0 q r rfl hU
    have hfind2 : (sortedWithPlaces (l.erase x)
        (qualifyingIds (calculateXcTimeTeamScores (l.erase x)).1)).find?
          (fun e => e.athlete_id = r.athlete_id) =
        some (placeAssign (qualifyingIds (calculateXcTimeTeamScores l).1)
          (0 + (u ++ p).length) r) := by
      rw [sortedWithPlaces, hqeq, hsE]
      exact find?_enumMap_placeAssign _ _ (u ++ p) 0 q r rfl hUp
    refine ⟨placeAssign (qualifyingIds (calculateXcTimeTeamScores l).1)
        (0 + (u ++ p).length) r,
      List.mem_of_find?_eq_some hfind2, rfl,
      placeAssign (qualifyingIds (calculateXcTimeTeamScores l).1)
        (0 + (u ++ x :: p).length) r,
      List.mem_of_find?_eq_some hfind1, rfl, ?_, ?_, ?_⟩
    · show (0 + (u ++ x :: p).length) + 1 = ((0 + (u ++ p).length) + 1) + 1
      simp [List.length_append]
      omega
    · by_cases hq : r.athlete_id ∈ qualifyingIds (calculateXcTimeTeamScores l).1
      · intro _
        show (if r.athlete_id ∈ qualifyingIds (calculateXcTimeTeamScores l).1
            then (0 + (u ++ x :: p).length) + 1 else 0) =
          (if r.athlete_id ∈ qualifyingIds (calculateXcTimeTeamScores l).1
            then (0 + (u ++ p).length) + 1 else 0) + 1
        rw [if_pos hq, if_pos hq]
        simp [List.length_append]
        omega
      · intro hne
        exfalso
        apply hne
        show (if r.athlete_id ∈ qualifyingIds (calculateXcTimeTeamScores l).1
            then (0 + (u ++ x :: p).length) + 1 else 0) = 0
        rw [if_neg hq]
    · by_cases hq : r.athlete_id ∈ qualifyingIds (calculateXcTimeTeamScores l).1
      · intro hzero
        exfalso
        have hz : (if r.athlete_id ∈
              qualifyingIds (calculateXcTimeTeamScores l).1
            then (0 + (u ++ x :: p).length) + 1 else 0) = 0 := hzero
        rw [if_pos hq] at hz
        omega
      · intro _
        show (if r.athlete_id ∈ qualifyingIds (calculateXcTimeTeamScores l).1
            then (0 + (u ++ p).length) + 1 else 0) = 0
        rw [if_neg hq]

/-- Witness for the amended C10, on the concrete two-runner race:
the empty-school result is absent from both team outputs, occupies a
position, and shifts the slower runner's overall place by one. -/
theorem c10_empty_school_amended_witness :
    ((c10Race.map (fun c => c.athlete_id)).Nodup) ∧
    (sampleRes "rx" "x1" "" "Unknown School" 100 ∈ c10Race) ∧
    ((sampleRes "rx" "x1" "" "Unknown School" 100).school_id = "") ∧
    (sampleRes "rb" "b1" "B" "BHS" 200 ∈ c10Race) ∧
    ((sampleRes "rx" "x1" "" "Unknown School" 100).xc_time <
      (sampleRes "rb" "b1" "B" "BHS" 200).xc_time) ∧
    ((∀ t ∈ (scoreGender c10Race).1, ∀ rn ∈ t.runners,
        rn.athleteId ≠ (sampleRes "rx" "x1" "" "Unknown School" 100).athlete_id) ∧
      (∀ t ∈ (scoreGender c10Race).2.1, ∀ rn ∈ t.runners,
        rn.athleteId ≠ (sampleRes "rx" "x1" "" "Unknown School" 100).athlete_id) ∧
      (∃ ex ∈ (scoreGender c10Race).2.2,
        ex.athlete_id = (sampleRes "rx" "x1" "" "Unknown School" 100).athlete_id) ∧
      (∃ e' ∈ (scoreGender
          (c10Race.erase (sampleRes "rx" "x1" "" "Unknown School" 100))).2.2,
        e'.athlete_id = (sampleRes "rb" "b1" "B" "BHS" 200).athlete_id ∧
        ∃ e ∈ (scoreGender c10Race).2.2,
          e.athlete_id = (sampleRes "rb" "b1" "B" "BHS" 200).athlete_id ∧
          e.overallPlace = e'.overallPlace + 1 ∧
          (e.scoringPlace ≠ 0 → e.scoringPlace = e'.scoringPlace + 1) ∧
          (e.scoringPlace = 0 → e'.scoringPlace = 0))) :=
  ⟨by decide, by decide, by decide, by decide, by decide,
   c10_empty_school_amended c10Race
     (sampleRes "rx" "x1" "" "Unknown School" 100)
     (sampleRes "rb" "b1" "B" "BHS" 200)
     (by decide) (by decide) (by decide) (by decide) (by decide)⟩
